import Mathlib

/-!
# Verification of the RF Explorer bridge (rf_explorer_bridge.py)

A shallow embedding of the two stateful cores of the bridge:

* `RFExplorerSerial.read_data` / `_parse_sweep` / `_parse_config` — the binary
  frame parser working over an unconsumed-byte buffer, embedded as pure
  functions over `List ℕ` (bytes) with the shared `SweepConfig` threaded
  explicitly.  Python floats are modelled as exact rationals; `round(x, d)`
  is modelled as round-half-to-even at `d` decimal places.
* `WebSocketBridge._generate_delta_sweep` and the `request_baseline` control
  message — the per-client delta encoder, embedded as a pure function of the
  client's session state and the current sweep.  A Python `IndexError`
  (assigning past the end of the baseline list) is modelled as `none`.
-/

/-- Round-half-to-even of a rational to an integer, the tie-breaking rule used
by Python's builtin `round`. -/
def rhe (q : ℚ) : ℤ :=
  let f := ⌊q⌋
  let r := q - f
  if r < 1/2 then f
  else if 1/2 < r then f + 1
  else if f % 2 = 0 then f else f + 1

/-- `round(q, d)` — round to `d` decimal places, half to even. -/
def roundTo (d : ℕ) (q : ℚ) : ℚ :=
  (rhe (q * 10 ^ d) : ℚ) / 10 ^ d

/-- A rational representable with at most `d` decimal places. -/
def decimalsLe (d : ℕ) (q : ℚ) : Prop := (q * 10 ^ d).den = 1

instance (d : ℕ) (q : ℚ) : Decidable (decimalsLe d q) := by
  unfold decimalsLe; infer_instance

/-- The shared sweep configuration (`SweepConfig` dataclass).  Floats are
modelled as rationals. -/
structure SweepConfig where
  start_freq_mhz : ℚ := 1990
  end_freq_mhz : ℚ := 6000
  steps : ℕ := 112
  rbw_khz : ℚ := 600
  deriving DecidableEq, Repr

/-- One decoded sweep point (`frequency` MHz, `amplitude` dBm). -/
structure SweepPoint where
  frequency : ℚ
  amplitude : ℚ
  deriving DecidableEq, Repr

instance : Inhabited SweepPoint := ⟨⟨0, 0⟩⟩

/-- A decoded frame as produced by `read_data`: a sweep message (with the
config snapshot taken at parse time) or a config message. -/
inductive Msg where
  | sweep (config : SweepConfig) (data : List SweepPoint)
  | config (config : SweepConfig)
  deriving DecidableEq, Repr

/-- ASCII decimal digit. -/
def isDigit (b : ℕ) : Bool := 48 ≤ b && b ≤ 57

/-- ASCII whitespace accepted by Python's `int()` around the digits. -/
def isPySpace (b : ℕ) : Bool :=
  b == 32 || b == 9 || b == 10 || b == 13 || b == 11 || b == 12

/-- Positional value of a list of ASCII digit bytes. -/
def decDigitsVal (l : List ℕ) : ℕ := l.foldl (fun a d => a * 10 + (d - 48)) 0

/-- Tail of a digit run possibly containing single underscores between
digits, as accepted by Python's `int()`. -/
def digitsUSRest : List ℕ → Bool
  | [] => true
  | 95 :: d :: rest => isDigit d && digitsUSRest rest
  | d :: rest => isDigit d && digitsUSRest rest

/-- Nonempty digit run, single underscores allowed between digits. -/
def digitsUS : List ℕ → Bool
  | [] => false
  | d :: rest => isDigit d && digitsUSRest rest

/-- Value of an unsigned digit run (underscores stripped), or `none`. -/
def decDigits (l : List ℕ) : Option ℤ :=
  if digitsUS l then some (decDigitsVal (l.filter (· ≠ 95)) : ℤ) else none

/-- Strip Python whitespace from both ends. -/
def pyTrim (l : List ℕ) : List ℕ :=
  ((l.dropWhile isPySpace).reverse.dropWhile isPySpace).reverse

/-- Python's `int()` applied to an ASCII byte string: optional surrounding
whitespace, optional sign, then a decimal digit run. -/
def pyInt (l : List ℕ) : Option ℤ :=
  match pyTrim l with
  | 43 :: t => decDigits t
  | 45 :: t => (decDigits t).map (fun z => -z)
  | t => decDigits t

/-- The body of `_parse_config`'s `try` block: attempt to decode the ASCII
payload and update the configuration; on any failure (undecodable byte,
payload shorter than 14, unparseable digit fields) the exception is caught
and the configuration is returned unchanged. -/
def tryConfigUpdate (c : SweepConfig) (payload : List ℕ) : SweepConfig :=
  if payload.all (· < 128) then
    if 14 ≤ payload.length then
      match pyInt (payload.take 7), pyInt ((payload.drop 7).take 7) with
      | some s, some sp =>
          { c with
            start_freq_mhz := (s : ℚ) / 1000
            end_freq_mhz := (s : ℚ) / 1000 + (sp : ℚ) / 1000 }
      | _, _ => c
    else c
  else c

/-- Whether `_parse_config` actually updates the configuration for this
payload (the complement is the "malformed payload" case). -/
def configUpdates (payload : List ℕ) : Bool :=
  payload.all (· < 128) && decide (14 ≤ payload.length) &&
    (pyInt (payload.take 7)).isSome && (pyInt ((payload.drop 7).take 7)).isSome

/-- CR or LF, the config-frame terminators. -/
def isEolByte (b : ℕ) : Bool := b == 13 || b == 10

/-- The `for i in range(...)` scan of `_parse_config` looking for the first
CR/LF: `findEolAux b i n` scans positions `i, i+1, …, i+n-1`. -/
def findEolAux (b : List ℕ) : ℕ → ℕ → Option ℕ
  | _, 0 => none
  | i, n + 1 => if isEolByte (b.getD i 0) then some i else findEolAux b (i + 1) n

/-- Index of the first CR/LF within the first `min |b| 100` bytes. -/
def findEol (b : List ℕ) : Option ℕ := findEolAux b 0 (min b.length 100)

/-- `_parse_sweep`: byte 2 is the sample count `N`; the frame is
`$S`, count byte, `N` amplitude bytes, one terminator byte.  Returns the
decoded message and the remaining buffer, or `none` if incomplete. -/
def parseSweep (c : SweepConfig) (b : List ℕ) : Option (Msg × List ℕ) :=
  if b.length < 4 then none
  else
    let steps := b.getD 2 0
    let expected := 3 + steps + 1
    if b.length < expected then none
    else
      let freqStep : ℚ :=
        if 1 < steps then (c.end_freq_mhz - c.start_freq_mhz) / ((steps - 1 : ℕ) : ℚ)
        else 0
      let data := (List.range steps).map (fun (i : ℕ) =>
        { frequency := roundTo 3 (c.start_freq_mhz + (i : ℚ) * freqStep)
          amplitude := roundTo 1 (-(((b.getD (3 + i) 0 : ℕ) : ℚ)) / 2) : SweepPoint })
      some (Msg.sweep c data, b.drop expected)

/-- The tail of `_parse_config` once the end-of-line offset is fixed:
decode `buffer[2:eol]`, attempt the config update, consume through `eol`,
and always emit a config message carrying the (possibly updated) config. -/
def parseConfigAt (c : SweepConfig) (b : List ℕ) (eol : ℕ) :
    SweepConfig × Msg × List ℕ :=
  let c' := tryConfigUpdate c ((b.drop 2).take (eol - 2))
  (c', Msg.config c', b.drop (eol + 1))

/-- `_parse_config`: find CR/LF in a 100-byte lookahead; if absent and fewer
than 100 bytes are buffered, await more data (`none`); if absent with 100
bytes present, force a split at offset 50. -/
def parseConfig (c : SweepConfig) (b : List ℕ) :
    Option (SweepConfig × Msg × List ℕ) :=
  match findEol b with
  | some i => some (parseConfigAt c b i)
  | none => if b.length < 100 then none else some (parseConfigAt c b 50)

/-- Index of the first `$` (0x24) marker byte, `bytearray.index(ord('$'))`. -/
def firstMarker : List ℕ → Option ℕ
  | [] => none
  | b :: t => if b == 36 then some 0 else (firstMarker t).map (· + 1)

/-- The `while` loop of `read_data`, with explicit fuel (one unit per loop
iteration; every iteration that does not halt consumes at least one byte, so
`|b| + 1` units always suffice): discard bytes before the first `$`
(clearing the whole buffer if there is none), halt on fewer than 3 buffered
bytes, dispatch on the type tag, skip one byte on an unknown tag, and halt
retaining the buffer when a frame is incomplete. -/
def parseLoop : ℕ → SweepConfig → List ℕ → List Msg × SweepConfig × List ℕ
  | 0, c, b => ([], c, b)
  | f + 1, c, b =>
    match firstMarker b with
    | none => ([], c, [])
    | some k =>
      if (b.drop k).length < 3 then ([], c, b.drop k)
      else if (b.drop k).getD 1 0 = 83 then
        match parseSweep c (b.drop k) with
        | none => ([], c, b.drop k)
        | some (m, rest) => (m :: (parseLoop f c rest).1, (parseLoop f c rest).2)
      else if (b.drop k).getD 1 0 = 67 then
        match parseConfig c (b.drop k) with
        | none => ([], c, b.drop k)
        | some (c2, m, rest) => (m :: (parseLoop f c2 rest).1, (parseLoop f c2 rest).2)
      else
        parseLoop f c ((b.drop k).drop 1)

/-- `read_data` restricted to its pure core: parse all complete frames out of
the buffer, returning the emitted messages, the updated configuration and the
retained buffer. -/
def readData (c : SweepConfig) (b : List ℕ) : List Msg × SweepConfig × List ℕ :=
  parseLoop (b.length + 1) c b

/-- The parser's persistent state: the shared config and the unconsumed
buffer. -/
structure ParserState where
  config : SweepConfig
  buffer : List ℕ
  deriving DecidableEq, Repr

/-- One call to `read_data` with `bytes` newly arrived from the serial port:
append to the buffer, then extract all complete frames. -/
def feed (s : ParserState) (bytes : List ℕ) : List Msg × ParserState :=
  let r := readData s.config (s.buffer ++ bytes)
  (r.1, ⟨r.2.1, r.2.2⟩)

/-- A sequence of `read_data` calls, one per arriving chunk. -/
def feedMany (s : ParserState) : List (List ℕ) → List Msg × ParserState
  | [] => ([], s)
  | ch :: rest =>
    let r := feed s ch
    let r' := feedMany r.2 rest
    (r.1 ++ r'.1, r'.2)

/-- One entry of the delta list emitted by `_generate_delta_sweep`. -/
structure Delta where
  index : ℕ
  frequency : ℚ
  amplitude : ℚ
  deriving DecidableEq, Repr

/-- The message produced for one client by the broadcast step: the sweep
passed through unencoded, a full baseline snapshot (`baseline: true`,
`encoding: 'full'`), or a delta frame. -/
inductive Encoded where
  | plain (data : List SweepPoint)
  | fullBaseline (data : List SweepPoint)
  | delta (deltas : List Delta) (baselineAge : ℚ) (compressionPct : ℚ)
  deriving DecidableEq, Repr

/-- One client's session: its `client_settings` entry together with its
`baseline_spectrum` entry. -/
structure ClientState where
  use_delta_encoding : Bool := false
  delta_threshold_db : ℚ := 1
  baseline_refresh_interval : ℚ := 60
  last_baseline_time : ℚ
  baseline : Option (List SweepPoint) := none
  deriving DecidableEq, Repr

/-- The `for i, point in enumerate(full_sweep['data'])` loop computing the
delta list, starting at index `i`: an index is included when it lies beyond
the stored baseline, or when its absolute amplitude difference from the
baseline reaches the threshold. -/
def computeDeltasAux (th : ℚ) (bl : List SweepPoint) :
    ℕ → List SweepPoint → List Delta
  | _, [] => []
  | i, p :: ps =>
    if bl.length ≤ i then
      ⟨i, p.frequency, p.amplitude⟩ :: computeDeltasAux th bl (i + 1) ps
    else if th ≤ |p.amplitude - (bl.getD i default).amplitude| then
      ⟨i, p.frequency, p.amplitude⟩ :: computeDeltasAux th bl (i + 1) ps
    else
      computeDeltasAux th bl (i + 1) ps

/-- The delta list for a full sweep against a stored baseline. -/
def computeDeltas (th : ℚ) (bl : List SweepPoint) (data : List SweepPoint) :
    List Delta :=
  computeDeltasAux th bl 0 data

/-- The `for delta in deltas: baseline[delta['index']] = …` update loop.
Assigning past the end of a Python list raises `IndexError`, modelled as
`none`. -/
def applyDeltas (bl : List SweepPoint) : List Delta → Option (List SweepPoint)
  | [] => some bl
  | d :: ds =>
    if d.index < bl.length then
      applyDeltas (bl.set d.index ⟨d.frequency, d.amplitude⟩) ds
    else none

/-- The compression-ratio diagnostic of `_generate_delta_sweep`:
`(1 - delta_size / original_size) * 100` with 16 assumed bytes per full point
and 20 per delta, or 0 when the sweep is empty. -/
def compressionPctVal (deltaCount totalCount : ℕ) : ℚ :=
  if 0 < totalCount * 16 then
    (1 - ((deltaCount * 20 : ℕ) : ℚ) / ((totalCount * 16 : ℕ) : ℚ)) * 100
  else 0

/-- `_generate_delta_sweep` for one client: refresh the baseline (emitting a
full snapshot) when there is none or it is older than the refresh interval;
otherwise emit the delta list and update the baseline in place at exactly the
touched indices.  `none` models the `IndexError` raised when a delta index
lies past the end of the baseline list. -/
def generateDeltaSweep (st : ClientState) (now : ℚ) (data : List SweepPoint) :
    Option (Encoded × ClientState) :=
  let needsRefresh := st.baseline_refresh_interval < now - st.last_baseline_time
  match st.baseline with
  | none =>
      some (.fullBaseline data,
        { st with baseline := some data, last_baseline_time := now })
  | some bl =>
      if needsRefresh then
        some (.fullBaseline data,
          { st with baseline := some data, last_baseline_time := now })
      else
        let ds := computeDeltas st.delta_threshold_db bl data
        match applyDeltas bl ds with
        | none => none
        | some bl' =>
            some (.delta ds (now - st.last_baseline_time)
                    (compressionPctVal ds.length data.length),
              { st with baseline := some bl' })

/-- The broadcast step's per-client encoding choice for a sweep frame: the
client's live `use_delta_encoding` flag selects between the delta encoder and
the unencoded sweep. -/
def encodeSweep (st : ClientState) (now : ℚ) (data : List SweepPoint) :
    Option (Encoded × ClientState) :=
  if st.use_delta_encoding then generateDeltaSweep st now data
  else some (.plain data, st)

/-- Handling of the `request_baseline` control message:
`self.baseline_spectrum.pop(client_id, None)`. -/
def requestBaseline (st : ClientState) : ClientState :=
  { st with baseline := none }

/-! ## Basic lemmas about rounding -/

theorem rhe_intCast (z : ℤ) : rhe (z : ℚ) = z := by
  unfold rhe
  simp only [Int.floor_intCast]
  norm_num

theorem roundTo_eq_self (d : ℕ) (q : ℚ) (h : decimalsLe d q) : roundTo d q = q := by
  unfold roundTo
  unfold decimalsLe at h
  have hq : ((q * 10 ^ d).num : ℚ) = q * 10 ^ d := (Rat.den_eq_one_iff _).mp h
  have h10 : ((10 : ℚ) ^ d) ≠ 0 := by positivity
  have hr : rhe (q * 10 ^ d) = (q * 10 ^ d).num := by
    conv_lhs => rw [← hq]
    exact rhe_intCast _
  rw [hr, hq]
  field_simp

theorem decimalsLe_of_intMul (d : ℕ) (q : ℚ) (z : ℤ) (h : q * 10 ^ d = (z : ℚ)) :
    decimalsLe d q := by
  unfold decimalsLe
  rw [h]
  exact Rat.den_intCast z

/-! ## Lemmas about the marker search -/

theorem firstMarker_cons_36 (t : List ℕ) : firstMarker (36 :: t) = some 0 := by
  simp [firstMarker]

theorem firstMarker_append_some (x : List ℕ) :
    ∀ (a : List ℕ) (k : ℕ), firstMarker a = some k → firstMarker (a ++ x) = some k := by
  intro a
  induction a with
  | nil => intro k h; simp [firstMarker] at h
  | cons b t ih =>
    intro k h
    by_cases hb : b = 36
    · subst hb; simpa [firstMarker] using h
    · simp only [firstMarker, List.cons_append, beq_iff_eq, if_neg hb,
        List.append_eq] at h ⊢
      rcases Option.map_eq_some'.mp h with ⟨k', hk', rfl⟩
      rw [ih k' hk']
      rfl

theorem firstMarker_append_none_none (a x : List ℕ) (ha : firstMarker a = none)
    (hx : firstMarker x = none) : firstMarker (a ++ x) = none := by
  induction a with
  | nil => simpa using hx
  | cons b t ih =>
    by_cases hb : b = 36
    · subst hb; simp [firstMarker] at ha
    · simp only [firstMarker, beq_iff_eq, if_neg hb, Option.map_eq_none'] at ha
      simp only [firstMarker, List.cons_append, beq_iff_eq, if_neg hb,
        Option.map_eq_none', List.append_eq]
      exact ih ha

theorem firstMarker_append_none_some (a x : List ℕ) (j : ℕ)
    (ha : firstMarker a = none) (hx : firstMarker x = some j) :
    firstMarker (a ++ x) = some (a.length + j) := by
  induction a with
  | nil => simpa using hx
  | cons b t ih =>
    by_cases hb : b = 36
    · subst hb; simp [firstMarker] at ha
    · simp only [firstMarker, beq_iff_eq, if_neg hb, Option.map_eq_none'] at ha
      simp only [firstMarker, List.cons_append, beq_iff_eq, if_neg hb,
        List.append_eq]
      rw [ih ha]
      simp only [Option.map_some', Option.some.injEq, List.length_cons]
      omega

theorem firstMarker_some_lt (a : List ℕ) (k : ℕ) (h : firstMarker a = some k) :
    k < a.length := by
  induction a generalizing k with
  | nil => simp [firstMarker] at h
  | cons b t ih =>
    by_cases hb : b = 36
    · subst hb
      simp [firstMarker] at h
      simp only [List.length_cons]
      omega
    · simp only [firstMarker, beq_iff_eq, if_neg hb] at h
      rcases Option.map_eq_some'.mp h with ⟨k', hk', rfl⟩
      have := ih k' hk'
      simp only [List.length_cons]
      omega

theorem firstMarker_getD (a : List ℕ) (k : ℕ) (h : firstMarker a = some k) :
    a.getD k 0 = 36 := by
  induction a generalizing k with
  | nil => simp [firstMarker] at h
  | cons b t ih =>
    by_cases hb : b = 36
    · subst hb
      simp [firstMarker] at h
      subst h
      rfl
    · simp only [firstMarker, beq_iff_eq, if_neg hb] at h
      rcases Option.map_eq_some'.mp h with ⟨k', hk', rfl⟩
      simpa [List.getD] using ih k' hk'

theorem firstMarker_drop (a : List ℕ) (k : ℕ) (h : firstMarker a = some k) :
    firstMarker (a.drop k) = some 0 := by
  have hk := firstMarker_some_lt a k h
  rw [List.drop_eq_getElem_cons hk]
  have hget : a[k] = 36 := by
    have := firstMarker_getD a k h
    rwa [List.getD_eq_getElem _ _ hk] at this
  rw [hget]
  exact firstMarker_cons_36 _

/-! ## Lemmas about the end-of-line scan -/

theorem findEolAux_none_of (b : List ℕ) :
    ∀ (n i : ℕ), (∀ j, i ≤ j → j < i + n → ¬ (isEolByte (b.getD j 0) = true)) →
      findEolAux b i n = none := by
  intro n
  induction n with
  | zero => intro i _; rfl
  | succ n ih =>
    intro i h
    have h0 : ¬ (isEolByte (b.getD i 0) = true) := h i le_rfl (by omega)
    simp only [findEolAux, if_neg h0]
    exact ih (i + 1) (fun j hj hj' => h j (by omega) (by omega))

theorem findEolAux_some_of (b : List ℕ) :
    ∀ (n i m : ℕ), i ≤ m → m < i + n → isEolByte (b.getD m 0) = true →
      (∀ j, i ≤ j → j < m → ¬ (isEolByte (b.getD j 0) = true)) →
      findEolAux b i n = some m := by
  intro n
  induction n with
  | zero => intro i m h1 h2; omega
  | succ n ih =>
    intro i m h1 h2 h3 h4
    by_cases he : i = m
    · subst he
      simp only [findEolAux]
      rw [if_pos h3]
    · have h0 : ¬ (isEolByte (b.getD i 0) = true) := h4 i le_rfl (by omega)
      simp only [findEolAux, if_neg h0]
      exact ih (i + 1) m (by omega) (by omega) h3 (fun j hj hj' => h4 j (by omega) hj')

theorem findEolAux_some_bounds (b : List ℕ) :
    ∀ (n i j : ℕ), findEolAux b i n = some j → i ≤ j ∧ j < i + n := by
  intro n
  induction n with
  | zero => intro i j h; simp [findEolAux] at h
  | succ n ih =>
    intro i j h
    simp only [findEolAux] at h
    split at h
    · cases h; omega
    · have := ih (i + 1) j h
      omega

theorem findEolAux_some_extend (b b2 : List ℕ) :
    ∀ (n m i j : ℕ), findEolAux b i n = some j → n ≤ m →
      (∀ p, i ≤ p → p ≤ j → b2.getD p 0 = b.getD p 0) →
      findEolAux b2 i m = some j := by
  intro n
  induction n with
  | zero => intro m i j h; simp [findEolAux] at h
  | succ n ih =>
    intro m i j h hm hagree
    have hb := findEolAux_some_bounds b (n + 1) i j h
    obtain ⟨m', rfl⟩ : ∃ m', m = m' + 1 := ⟨m - 1, by omega⟩
    simp only [findEolAux] at h ⊢
    rw [hagree i le_rfl hb.1]
    split at h
    · rename_i hcond
      rw [if_pos hcond]
      exact h
    · rename_i hcond
      rw [if_neg hcond]
      have hij : i + 1 ≤ j := by
        rcases Nat.eq_or_lt_of_le hb.1 with he | hl
        · exfalso
          apply hcond
          have := findEolAux_some_bounds b n (i + 1) j h
          omega
        · omega
      exact ih m' (i + 1) j h (by omega) (fun p hp hp' => hagree p (by omega) hp')

theorem findEolAux_none_congr (b b2 : List ℕ) :
    ∀ (n i : ℕ), findEolAux b i n = none →
      (∀ p, i ≤ p → p < i + n → b2.getD p 0 = b.getD p 0) →
      findEolAux b2 i n = none := by
  intro n
  induction n with
  | zero => intro i _ _; rfl
  | succ n ih =>
    intro i h hagree
    simp only [findEolAux] at h ⊢
    rw [hagree i le_rfl (by omega)]
    split at h
    · exact absurd h (by simp)
    · rename_i hcond
      rw [if_neg hcond]
      exact ih (i + 1) h (fun p hp hp' => hagree p (by omega) (by omega))

/-! ## Consumption and append-stability of the two frame decoders -/

theorem parseSweep_length_lt (c : SweepConfig) (b : List ℕ) (m : Msg) (r : List ℕ)
    (h : parseSweep c b = some (m, r)) : r.length < b.length := by
  simp only [parseSweep] at h
  split at h
  · exact absurd h (by simp)
  · rename_i h4
    split at h
    · exact absurd h (by simp)
    · rename_i hexp
      simp only [Option.some.injEq, Prod.mk.injEq] at h
      obtain ⟨-, hr⟩ := h
      subst hr
      simp only [List.length_drop]
      omega

theorem parseConfig_length_lt (c : SweepConfig) (b : List ℕ) (c2 : SweepConfig)
    (m : Msg) (r : List ℕ) (h : parseConfig c b = some (c2, m, r)) :
    r.length < b.length := by
  simp only [parseConfig] at h
  split at h
  · rename_i i he
    simp only [Option.some.injEq, parseConfigAt, Prod.mk.injEq] at h
    obtain ⟨-, -, hr⟩ := h
    have hi := findEolAux_some_bounds b (min b.length 100) 0 i he
    subst hr
    simp only [List.length_drop]
    omega
  · split at h
    · exact absurd h (by simp)
    · rename_i h100
      simp only [Option.some.injEq, parseConfigAt, Prod.mk.injEq] at h
      obtain ⟨-, -, hr⟩ := h
      subst hr
      simp only [List.length_drop]
      omega

theorem parseSweep_append (c : SweepConfig) (b x : List ℕ) (m : Msg) (r : List ℕ)
    (h : parseSweep c b = some (m, r)) :
    parseSweep c (b ++ x) = some (m, r ++ x) := by
  simp only [parseSweep] at h ⊢
  split at h
  · exact absurd h (by simp)
  rename_i h4
  split at h
  · exact absurd h (by simp)
  rename_i hexp
  have hL : (b ++ x).length = b.length + x.length := List.length_append b x
  have h4' : ¬ (b ++ x).length < 4 := by omega
  have hg2 : (b ++ x).getD 2 0 = b.getD 2 0 := List.getD_append _ _ _ _ (by omega)
  rw [if_neg h4', hg2]
  have hexp2 : ¬ (b ++ x).length < 3 + b.getD 2 0 + 1 := by omega
  rw [if_neg hexp2]
  simp only [Option.some.injEq, Prod.mk.injEq] at h ⊢
  obtain ⟨hm, hr⟩ := h
  constructor
  · rw [← hm]
    congr 1
    apply List.map_congr_left
    intro i hi
    have hi' : i < b.getD 2 0 := List.mem_range.mp hi
    have hgi : (b ++ x).getD (3 + i) 0 = b.getD (3 + i) 0 :=
      List.getD_append _ _ _ _ (by omega)
    rw [hgi]
  · rw [← hr, List.drop_append_of_le_length (by omega)]

theorem parseConfigAt_append (c : SweepConfig) (b x : List ℕ) (eol : ℕ)
    (h1 : eol < b.length) :
    parseConfigAt c (b ++ x) eol =
      ((parseConfigAt c b eol).1, (parseConfigAt c b eol).2.1,
        (parseConfigAt c b eol).2.2 ++ x) := by
  simp only [parseConfigAt]
  have hdrop : (b ++ x).drop (eol + 1) = b.drop (eol + 1) ++ x :=
    List.drop_append_of_le_length (by omega)
  have hpayload : ((b ++ x).drop 2).take (eol - 2) = (b.drop 2).take (eol - 2) := by
    by_cases h2 : eol ≤ 2
    · have : eol - 2 = 0 := by omega
      simp [this]
    · have hb2 : 2 ≤ b.length := by omega
      rw [List.drop_append_of_le_length hb2]
      exact List.take_append_of_le_length (by simp only [List.length_drop]; omega)
  rw [hdrop, hpayload]

theorem parseConfig_append (c : SweepConfig) (b x : List ℕ) (c2 : SweepConfig)
    (m : Msg) (r : List ℕ) (h : parseConfig c b = some (c2, m, r)) :
    parseConfig c (b ++ x) = some (c2, m, r ++ x) := by
  simp only [parseConfig] at h
  split at h
  · rename_i i he
    have hi := findEolAux_some_bounds b (min b.length 100) 0 i he
    have hib : i < b.length := by omega
    have he' : findEol (b ++ x) = some i := by
      unfold findEol
      refine findEolAux_some_extend b (b ++ x) (min b.length 100) _ 0 i he ?_ ?_
      · have hL := List.length_append b x
        omega
      · intro p hp hp'
        exact List.getD_append _ _ _ _ (by omega)
    simp only [parseConfig, he']
    rw [parseConfigAt_append c b x i hib]
    rw [Option.some.inj h]
  · rename_i he
    split at h
    · exact absurd h (by simp)
    rename_i h100
    have hb100 : 100 ≤ b.length := by omega
    have hL := List.length_append b x
    have he2 : findEolAux b 0 100 = none := by
      have hmin : min b.length 100 = 100 := by omega
      unfold findEol at he
      rwa [hmin] at he
    have he' : findEol (b ++ x) = none := by
      unfold findEol
      have hmin' : min (b ++ x).length 100 = 100 := by omega
      rw [hmin']
      refine findEolAux_none_congr b (b ++ x) 100 0 he2 ?_
      intro p hp hp'
      exact List.getD_append _ _ _ _ (by omega)
    simp only [parseConfig, he']
    rw [if_neg (by omega : ¬ (b ++ x).length < 100)]
    rw [parseConfigAt_append c b x 50 (by omega)]
    rw [Option.some.inj h]

/-! ## The read_data loop: fuel stability and one-step unfolding lemmas -/

theorem parseLoop_fuel : ∀ (f g : ℕ) (c : SweepConfig) (b : List ℕ),
    b.length < f → b.length < g → parseLoop f c b = parseLoop g c b := by
  intro f
  induction f with
  | zero => intro g c b hf _; omega
  | succ f ih =>
    intro g c b hf hg
    obtain ⟨g', rfl⟩ : ∃ g', g = g' + 1 := ⟨g - 1, by omega⟩
    cases hm : firstMarker b with
    | none => simp only [parseLoop, hm]
    | some k =>
      simp only [parseLoop, hm]
      have hdk : (b.drop k).length = b.length - k := List.length_drop k b
      by_cases h3 : (b.drop k).length < 3
      · rw [if_pos h3, if_pos h3]
      · rw [if_neg h3, if_neg h3]
        by_cases hS : (b.drop k).getD 1 0 = 83
        · rw [if_pos hS, if_pos hS]
          cases hps : parseSweep c (b.drop k) with
          | none => rfl
          | some mr =>
            obtain ⟨m, rest⟩ := mr
            dsimp only
            have hrest := parseSweep_length_lt c (b.drop k) m rest hps
            rw [ih g' c rest (by omega) (by omega)]
        · rw [if_neg hS, if_neg hS]
          by_cases hC : (b.drop k).getD 1 0 = 67
          · rw [if_pos hC, if_pos hC]
            cases hpc : parseConfig c (b.drop k) with
            | none => rfl
            | some cmr =>
              obtain ⟨c2, m, rest⟩ := cmr
              dsimp only
              have hrest := parseConfig_length_lt c (b.drop k) c2 m rest hpc
              rw [ih g' c2 rest (by omega) (by omega)]
          · rw [if_neg hC, if_neg hC]
            have hdk1 : ((b.drop k).drop 1).length = (b.drop k).length - 1 :=
              List.length_drop 1 (b.drop k)
            exact ih g' c ((b.drop k).drop 1) (by omega) (by omega)

theorem readData_none (c : SweepConfig) (b : List ℕ) (hm : firstMarker b = none) :
    readData c b = ([], c, []) := by
  simp only [readData, parseLoop, hm]

theorem readData_short (c : SweepConfig) (b : List ℕ) (k : ℕ)
    (hm : firstMarker b = some k) (h3 : (b.drop k).length < 3) :
    readData c b = ([], c, b.drop k) := by
  simp only [readData, parseLoop, hm]
  rw [if_pos h3]

theorem readData_sweep_halt (c : SweepConfig) (b : List ℕ) (k : ℕ)
    (hm : firstMarker b = some k) (h3 : ¬ (b.drop k).length < 3)
    (hS : (b.drop k).getD 1 0 = 83) (hps : parseSweep c (b.drop k) = none) :
    readData c b = ([], c, b.drop k) := by
  simp only [readData, parseLoop, hm]
  rw [if_neg h3, if_pos hS, hps]

theorem readData_sweep_step (c : SweepConfig) (b : List ℕ) (k : ℕ) (m : Msg)
    (rest : List ℕ) (hm : firstMarker b = some k) (h3 : ¬ (b.drop k).length < 3)
    (hS : (b.drop k).getD 1 0 = 83) (hps : parseSweep c (b.drop k) = some (m, rest)) :
    readData c b = (m :: (readData c rest).1, (readData c rest).2) := by
  have hrest := parseSweep_length_lt c (b.drop k) m rest hps
  have hdk : (b.drop k).length = b.length - k := List.length_drop k b
  have h1 : readData c b = (m :: (parseLoop b.length c rest).1,
      (parseLoop b.length c rest).2) := by
    simp only [readData, parseLoop, hm]
    rw [if_neg h3, if_pos hS, hps]
  rw [h1, parseLoop_fuel b.length (rest.length + 1) c rest (by omega) (by omega)]
  rfl

theorem readData_config_halt (c : SweepConfig) (b : List ℕ) (k : ℕ)
    (hm : firstMarker b = some k) (h3 : ¬ (b.drop k).length < 3)
    (hC : (b.drop k).getD 1 0 = 67) (hpc : parseConfig c (b.drop k) = none) :
    readData c b = ([], c, b.drop k) := by
  simp only [readData, parseLoop, hm]
  rw [if_neg h3, if_neg (by rw [hC]; decide), if_pos hC, hpc]

theorem readData_config_step (c : SweepConfig) (b : List ℕ) (k : ℕ)
    (c2 : SweepConfig) (m : Msg) (rest : List ℕ) (hm : firstMarker b = some k)
    (h3 : ¬ (b.drop k).length < 3) (hC : (b.drop k).getD 1 0 = 67)
    (hpc : parseConfig c (b.drop k) = some (c2, m, rest)) :
    readData c b = (m :: (readData c2 rest).1, (readData c2 rest).2) := by
  have hrest := parseConfig_length_lt c (b.drop k) c2 m rest hpc
  have hdk : (b.drop k).length = b.length - k := List.length_drop k b
  have h1 : readData c b = (m :: (parseLoop b.length c2 rest).1,
      (parseLoop b.length c2 rest).2) := by
    simp only [readData, parseLoop, hm]
    rw [if_neg h3, if_neg (by rw [hC]; decide), if_pos hC, hpc]
  rw [h1, parseLoop_fuel b.length (rest.length + 1) c2 rest (by omega) (by omega)]
  rfl

theorem readData_unknown (c : SweepConfig) (b : List ℕ) (k : ℕ)
    (hm : firstMarker b = some k) (h3 : ¬ (b.drop k).length < 3)
    (hS : ¬ (b.drop k).getD 1 0 = 83) (hC : ¬ (b.drop k).getD 1 0 = 67) :
    readData c b = readData c ((b.drop k).drop 1) := by
  have hdk : (b.drop k).length = b.length - k := List.length_drop k b
  have hdk1 : ((b.drop k).drop 1).length = (b.drop k).length - 1 :=
    List.length_drop 1 (b.drop k)
  have h1 : readData c b = parseLoop b.length c ((b.drop k).drop 1) := by
    simp only [readData, parseLoop, hm]
    rw [if_neg h3, if_neg hS, if_neg hC]
  rw [h1]
  exact parseLoop_fuel b.length (((b.drop k).drop 1).length + 1) c _ (by omega) (by omega)

/-! ## Dropping leading garbage, quiescence of leftovers, and append -/

theorem readData_drop_marker (c : SweepConfig) (b : List ℕ) (k : ℕ)
    (hm : firstMarker b = some k) : readData c b = readData c (b.drop k) := by
  have hm0 : firstMarker (b.drop k) = some 0 := firstMarker_drop b k hm
  have hd0 : (b.drop k).drop 0 = b.drop k := List.drop_zero _
  by_cases h3 : (b.drop k).length < 3
  · have h3' : ((b.drop k).drop 0).length < 3 := by rwa [hd0]
    rw [readData_short c b k hm h3, readData_short c (b.drop k) 0 hm0 h3', hd0]
  · have h3' : ¬ ((b.drop k).drop 0).length < 3 := by rwa [hd0]
    by_cases hS : (b.drop k).getD 1 0 = 83
    · have hS' : ((b.drop k).drop 0).getD 1 0 = 83 := by rwa [hd0]
      cases hps : parseSweep c (b.drop k) with
      | none =>
        have hps' : parseSweep c ((b.drop k).drop 0) = none := by rwa [hd0]
        rw [readData_sweep_halt c b k hm h3 hS hps,
          readData_sweep_halt c (b.drop k) 0 hm0 h3' hS' hps', hd0]
      | some mr =>
        obtain ⟨m, rest⟩ := mr
        have hps' : parseSweep c ((b.drop k).drop 0) = some (m, rest) := by rwa [hd0]
        rw [readData_sweep_step c b k m rest hm h3 hS hps,
          readData_sweep_step c (b.drop k) 0 m rest hm0 h3' hS' hps']
    · have hS' : ¬ ((b.drop k).drop 0).getD 1 0 = 83 := by rwa [hd0]
      by_cases hC : (b.drop k).getD 1 0 = 67
      · have hC' : ((b.drop k).drop 0).getD 1 0 = 67 := by rwa [hd0]
        cases hpc : parseConfig c (b.drop k) with
        | none =>
          have hpc' : parseConfig c ((b.drop k).drop 0) = none := by rwa [hd0]
          rw [readData_config_halt c b k hm h3 hC hpc,
            readData_config_halt c (b.drop k) 0 hm0 h3' hC' hpc', hd0]
        | some cmr =>
          obtain ⟨c2, m, rest⟩ := cmr
          have hpc' : parseConfig c ((b.drop k).drop 0) = some (c2, m, rest) := by
            rwa [hd0]
          rw [readData_config_step c b k c2 m rest hm h3 hC hpc,
            readData_config_step c (b.drop k) 0 c2 m rest hm0 h3' hC' hpc']
      · have hC' : ¬ ((b.drop k).drop 0).getD 1 0 = 67 := by rwa [hd0]
        rw [readData_unknown c b k hm h3 hS hC,
          readData_unknown c (b.drop k) 0 hm0 h3' hS' hC', hd0]

theorem readData_quiescent : ∀ (n : ℕ) (c : SweepConfig) (b : List ℕ),
    b.length ≤ n →
    readData (readData c b).2.1 (readData c b).2.2 =
      ([], (readData c b).2.1, (readData c b).2.2) := by
  intro n
  induction n with
  | zero =>
    intro c b hb
    have hb0 : b = [] := List.length_eq_zero.mp (by omega)
    subst hb0
    rw [readData_none c [] rfl]
    exact readData_none c [] rfl
  | succ n ih =>
    intro c b hb
    cases hm : firstMarker b with
    | none =>
      rw [readData_none c b hm]
      exact readData_none c [] rfl
    | some k =>
      have hm0 : firstMarker (b.drop k) = some 0 := firstMarker_drop b k hm
      have hd0 : (b.drop k).drop 0 = b.drop k := List.drop_zero _
      have hdk : (b.drop k).length = b.length - k := List.length_drop k b
      by_cases h3 : (b.drop k).length < 3
      · rw [readData_short c b k hm h3]
        have h3' : ((b.drop k).drop 0).length < 3 := by rwa [hd0]
        rw [readData_short c (b.drop k) 0 hm0 h3', hd0]
      · have h3' : ¬ ((b.drop k).drop 0).length < 3 := by rwa [hd0]
        by_cases hS : (b.drop k).getD 1 0 = 83
        · have hS' : ((b.drop k).drop 0).getD 1 0 = 83 := by rwa [hd0]
          cases hps : parseSweep c (b.drop k) with
          | none =>
            rw [readData_sweep_halt c b k hm h3 hS hps]
            have hps' : parseSweep c ((b.drop k).drop 0) = none := by rwa [hd0]
            rw [readData_sweep_halt c (b.drop k) 0 hm0 h3' hS' hps', hd0]
          | some mr =>
            obtain ⟨m, rest⟩ := mr
            have hrest := parseSweep_length_lt c (b.drop k) m rest hps
            rw [readData_sweep_step c b k m rest hm h3 hS hps]
            exact ih c rest (by omega)
        · by_cases hC : (b.drop k).getD 1 0 = 67
          · have hC' : ((b.drop k).drop 0).getD 1 0 = 67 := by rwa [hd0]
            cases hpc : parseConfig c (b.drop k) with
            | none =>
              rw [readData_config_halt c b k hm h3 hC hpc]
              have hpc' : parseConfig c ((b.drop k).drop 0) = none := by rwa [hd0]
              have hS' : ¬ ((b.drop k).drop 0).getD 1 0 = 83 := by rwa [hd0]
              rw [readData_config_halt c (b.drop k) 0 hm0 h3' hC' hpc', hd0]
            | some cmr =>
              obtain ⟨c2, m, rest⟩ := cmr
              have hrest := parseConfig_length_lt c (b.drop k) c2 m rest hpc
              rw [readData_config_step c b k c2 m rest hm h3 hC hpc]
              exact ih c2 rest (by omega)
          · have hdk1 : ((b.drop k).drop 1).length = (b.drop k).length - 1 :=
              List.length_drop 1 (b.drop k)
            rw [readData_unknown c b k hm h3 hS hC]
            exact ih c ((b.drop k).drop 1) (by omega)

theorem readData_append : ∀ (n : ℕ) (c : SweepConfig) (a x : List ℕ),
    a.length ≤ n →
    readData c (a ++ x) =
      ((readData c a).1 ++
          (readData (readData c a).2.1 ((readData c a).2.2 ++ x)).1,
        (readData (readData c a).2.1 ((readData c a).2.2 ++ x)).2) := by
  intro n
  induction n with
  | zero =>
    intro c a x ha
    have ha0 : a = [] := List.length_eq_zero.mp (by omega)
    subst ha0
    rw [readData_none c [] rfl]
    simp only [List.nil_append]
  | succ n ih =>
    intro c a x ha
    cases hm : firstMarker a with
    | none =>
      rw [readData_none c a hm]
      dsimp only
      simp only [List.nil_append]
      cases hx : firstMarker x with
      | none =>
        rw [readData_none c (a ++ x) (firstMarker_append_none_none a x hm hx),
          readData_none c x hx]
      | some j =>
        rw [readData_drop_marker c (a ++ x) (a.length + j)
            (firstMarker_append_none_some a x j hm hx),
          readData_drop_marker c x j hx, List.drop_append]
    | some k =>
      have hkl : k < a.length := firstMarker_some_lt a k hm
      have hax : firstMarker (a ++ x) = some k := firstMarker_append_some x a k hm
      have hdax : (a ++ x).drop k = a.drop k ++ x :=
        List.drop_append_of_le_length (le_of_lt hkl)
      have hm0 : firstMarker (a.drop k) = some 0 := firstMarker_drop a k hm
      have hm0' : firstMarker (a.drop k ++ x) = some 0 :=
        firstMarker_append_some x (a.drop k) 0 hm0
      have hL : (a.drop k ++ x).length = (a.drop k).length + x.length :=
        List.length_append _ _
      have hdk : (a.drop k).length = a.length - k := List.length_drop k a
      have hd0 : (a.drop k ++ x).drop 0 = a.drop k ++ x := List.drop_zero _
      rw [readData_drop_marker c (a ++ x) k hax, hdax]
      by_cases h3 : (a.drop k).length < 3
      · rw [readData_short c a k hm h3]
        dsimp only
        simp
      · have h3' : ¬ ((a.drop k ++ x).drop 0).length < 3 := by rw [hd0]; omega
        by_cases hS : (a.drop k).getD 1 0 = 83
        · cases hps : parseSweep c (a.drop k) with
          | none =>
            rw [readData_sweep_halt c a k hm h3 hS hps]
            dsimp only
            simp
          | some mr =>
            obtain ⟨m, rest⟩ := mr
            have hS' : ((a.drop k ++ x).drop 0).getD 1 0 = 83 := by
              rw [hd0, List.getD_append _ _ _ _ (by omega)]
              exact hS
            have hps' : parseSweep c ((a.drop k ++ x).drop 0) = some (m, rest ++ x) := by
              rw [hd0]
              exact parseSweep_append c (a.drop k) x m rest hps
            rw [readData_sweep_step c (a.drop k ++ x) 0 m (rest ++ x) hm0' h3' hS' hps',
              readData_sweep_step c a k m rest hm h3 hS hps]
            dsimp only
            have hrest := parseSweep_length_lt c (a.drop k) m rest hps
            rw [ih c rest x (by omega)]
            simp [List.cons_append]
        · by_cases hC : (a.drop k).getD 1 0 = 67
          · cases hpc : parseConfig c (a.drop k) with
            | none =>
              rw [readData_config_halt c a k hm h3 hC hpc]
              dsimp only
              simp
            | some cmr =>
              obtain ⟨c2, m, rest⟩ := cmr
              have hC' : ((a.drop k ++ x).drop 0).getD 1 0 = 67 := by
                rw [hd0, List.getD_append _ _ _ _ (by omega)]
                exact hC
              have hpc' : parseConfig c ((a.drop k ++ x).drop 0) =
                  some (c2, m, rest ++ x) := by
                rw [hd0]
                exact parseConfig_append c (a.drop k) x c2 m rest hpc
              rw [readData_config_step c (a.drop k ++ x) 0 c2 m (rest ++ x) hm0' h3'
                  hC' hpc',
                readData_config_step c a k c2 m rest hm h3 hC hpc]
              dsimp only
              have hrest := parseConfig_length_lt c (a.drop k) c2 m rest hpc
              rw [ih c2 rest x (by omega)]
              simp [List.cons_append]
          · have hS' : ¬ ((a.drop k ++ x).drop 0).getD 1 0 = 83 := by
              rw [hd0, List.getD_append _ _ _ _ (by omega)]
              exact hS
            have hC' : ¬ ((a.drop k ++ x).drop 0).getD 1 0 = 67 := by
              rw [hd0, List.getD_append _ _ _ _ (by omega)]
              exact hC
            rw [readData_unknown c (a.drop k ++ x) 0 hm0' h3' hS' hC',
              readData_unknown c a k hm h3 hS hC, hd0,
              List.drop_append_of_le_length (by omega : 1 ≤ (a.drop k).length)]
            exact ih c ((a.drop k).drop 1) x
              (by
                have hdk1 : ((a.drop k).drop 1).length = (a.drop k).length - 1 :=
                  List.length_drop 1 (a.drop k)
                omega)

/-! ## feed-level consequences -/

theorem feed_split (s : ParserState) (a x : List ℕ) :
    feed s (a ++ x) =
      ((feed s a).1 ++ (feed (feed s a).2 x).1, (feed (feed s a).2 x).2) := by
  simp only [feed]
  rw [← List.append_assoc]
  rw [readData_append (s.buffer ++ a).length s.config (s.buffer ++ a) x le_rfl]

theorem feedMany_eq_feed_flatten : ∀ (chunks : List (List ℕ)) (s : ParserState),
    readData s.config s.buffer = ([], s.config, s.buffer) →
    feedMany s chunks = feed s chunks.flatten := by
  intro chunks
  induction chunks with
  | nil =>
    intro s hq
    simp only [feedMany, List.flatten, feed, List.append_nil]
    rw [hq]
  | cons ch rest ih =>
    intro s hq
    simp only [feedMany, List.flatten]
    rw [feed_split s ch rest.flatten]
    rw [ih (feed s ch).2
      (readData_quiescent (s.buffer ++ ch).length s.config (s.buffer ++ ch) le_rfl)]

/-! ## Lemmas about the delta encoder -/

theorem getD_set_ne (l : List SweepPoint) (i j : ℕ) (v dv : SweepPoint)
    (h : i ≠ j) : (l.set i v).getD j dv = l.getD j dv := by
  simp [List.getD, List.getElem?_set, h]

theorem getD_set_self (l : List SweepPoint) (i : ℕ) (v dv : SweepPoint)
    (h : i < l.length) : (l.set i v).getD i dv = v := by
  simp [List.getD, List.getElem?_set, h]

theorem computeDeltasAux_mem (th : ℚ) (bl : List SweepPoint) :
    ∀ (ps : List SweepPoint) (i : ℕ) (d : Delta), d ∈ computeDeltasAux th bl i ps →
      i ≤ d.index ∧ d.index < i + ps.length ∧
        (⟨d.frequency, d.amplitude⟩ : SweepPoint) = ps.getD (d.index - i) default := by
  intro ps
  induction ps with
  | nil => intro i d hd; simp [computeDeltasAux] at hd
  | cons p ps ih =>
    intro i d hd
    simp only [computeDeltasAux] at hd
    have hcons : d = ⟨i, p.frequency, p.amplitude⟩ ∨ d ∈ computeDeltasAux th bl (i + 1) ps := by
      by_cases h1 : bl.length ≤ i
      · rw [if_pos h1] at hd
        exact List.mem_cons.mp hd
      · rw [if_neg h1] at hd
        by_cases h2 : th ≤ |p.amplitude - (bl.getD i default).amplitude|
        · rw [if_pos h2] at hd
          exact List.mem_cons.mp hd
        · rw [if_neg h2] at hd
          exact Or.inr hd
    rcases hcons with he | ht
    · subst he
      refine ⟨le_rfl, by simp [List.length_cons], ?_⟩
      simp [List.getD_cons_zero]
    · obtain ⟨h1, h2, h3⟩ := ih (i + 1) d ht
      refine ⟨by omega, by simp [List.length_cons]; omega, ?_⟩
      have hidx : d.index - i = (d.index - (i + 1)) + 1 := by omega
      rw [hidx, List.getD_cons_succ]
      exact h3

theorem computeDeltasAux_pairwise (th : ℚ) (bl : List SweepPoint) :
    ∀ (ps : List SweepPoint) (i : ℕ),
      (computeDeltasAux th bl i ps).Pairwise (fun d1 d2 => d1.index < d2.index) := by
  intro ps
  induction ps with
  | nil => intro i; simp [computeDeltasAux]
  | cons p ps ih =>
    intro i
    simp only [computeDeltasAux]
    have hcons : (⟨i, p.frequency, p.amplitude⟩ :: computeDeltasAux th bl (i + 1) ps).Pairwise
        (fun d1 d2 => d1.index < d2.index) := by
      refine List.Pairwise.cons ?_ (ih (i + 1))
      intro d hd
      have := (computeDeltasAux_mem th bl ps (i + 1) d hd).1
      show i < d.index
      omega
    by_cases h1 : bl.length ≤ i
    · rw [if_pos h1]; exact hcons
    · rw [if_neg h1]
      by_cases h2 : th ≤ |p.amplitude - (bl.getD i default).amplitude|
      · rw [if_pos h2]; exact hcons
      · rw [if_neg h2]; exact ih (i + 1)

theorem computeDeltasAux_nonpos (th : ℚ) (bl : List SweepPoint) (hth : th ≤ 0) :
    ∀ (ps : List SweepPoint) (i : ℕ),
      (computeDeltasAux th bl i ps).map (fun d => d.index) = List.range' i ps.length := by
  intro ps
  induction ps with
  | nil => intro i; simp [computeDeltasAux]
  | cons p ps ih =>
    intro i
    simp only [computeDeltasAux]
    have habs : th ≤ |p.amplitude - (bl.getD i default).amplitude| :=
      le_trans hth (abs_nonneg _)
    by_cases h1 : bl.length ≤ i
    · rw [if_pos h1]
      simp only [List.map_cons, List.length_cons, List.range'_succ]
      rw [ih (i + 1)]
    · rw [if_neg h1, if_pos habs]
      simp only [List.map_cons, List.length_cons, List.range'_succ]
      rw [ih (i + 1)]

theorem applyDeltas_length : ∀ (ds : List Delta) (bl bl' : List SweepPoint),
    applyDeltas bl ds = some bl' → bl'.length = bl.length := by
  intro ds
  induction ds with
  | nil =>
    intro bl bl' h
    simp only [applyDeltas, Option.some.injEq] at h
    rw [← h]
  | cons d ds ih =>
    intro bl bl' h
    simp only [applyDeltas] at h
    split at h
    · have := ih _ _ h
      rw [this, List.length_set]
    · exact absurd h (by simp)

theorem applyDeltas_isSome : ∀ (ds : List Delta) (bl : List SweepPoint),
    (∀ d ∈ ds, d.index < bl.length) → ∃ bl', applyDeltas bl ds = some bl' := by
  intro ds
  induction ds with
  | nil => intro bl _; exact ⟨bl, rfl⟩
  | cons d ds ih =>
    intro bl h
    have hd : d.index < bl.length := h d (List.mem_cons_self d ds)
    simp only [applyDeltas, if_pos hd]
    refine ih _ ?_
    intro d' hd'
    rw [List.length_set]
    exact h d' (List.mem_cons_of_mem d hd')

theorem applyDeltas_untouched : ∀ (ds : List Delta) (bl bl' : List SweepPoint) (j : ℕ),
    applyDeltas bl ds = some bl' → (∀ d ∈ ds, d.index ≠ j) →
    bl'.getD j default = bl.getD j default := by
  intro ds
  induction ds with
  | nil =>
    intro bl bl' j h _
    simp only [applyDeltas, Option.some.injEq] at h
    rw [← h]
  | cons d ds ih =>
    intro bl bl' j h hne
    simp only [applyDeltas] at h
    split at h
    · rw [ih _ _ j h (fun d' hd' => hne d' (List.mem_cons_of_mem d hd'))]
      exact getD_set_ne bl d.index j _ _ (hne d (List.mem_cons_self d ds))
    · exact absurd h (by simp)

theorem applyDeltas_touched : ∀ (ds : List Delta) (bl bl' : List SweepPoint),
    applyDeltas bl ds = some bl' →
    ds.Pairwise (fun d1 d2 => d1.index < d2.index) →
    ∀ d ∈ ds, bl'.getD d.index default = ⟨d.frequency, d.amplitude⟩ := by
  intro ds
  induction ds with
  | nil => intro bl bl' _ _ d hd; simp at hd
  | cons d0 ds ih =>
    intro bl bl' h hpw d hd
    simp only [applyDeltas] at h
    rcases List.pairwise_cons.mp hpw with ⟨hlt, hpw'⟩
    split at h
    · rename_i hidx
      rcases List.mem_cons.mp hd with he | ht
      · subst he
        rw [applyDeltas_untouched ds _ bl' d.index h
          (fun d' hd' => Nat.ne_of_gt (hlt d' hd'))]
        exact getD_set_self bl d.index _ _ hidx
      · exact ih _ _ h hpw' d ht
    · exact absurd h (by simp)

theorem generateDeltaSweep_delta (st : ClientState) (now : ℚ)
    (data bl bl' : List SweepPoint) (hbl : st.baseline = some bl)
    (hfresh : ¬ st.baseline_refresh_interval < now - st.last_baseline_time)
    (happ : applyDeltas bl (computeDeltas st.delta_threshold_db bl data) = some bl') :
    generateDeltaSweep st now data =
      some (.delta (computeDeltas st.delta_threshold_db bl data)
              (now - st.last_baseline_time)
              (compressionPctVal (computeDeltas st.delta_threshold_db bl data).length
                data.length),
        { st with baseline := some bl' }) := by
  simp only [generateDeltaSweep, hbl]
  rw [if_neg hfresh]
  simp only [computeDeltas] at happ ⊢
  rw [happ]

/-! ## Digit payloads and the embedded int() parser -/

theorem isDigit_bounds (d : ℕ) (h : isDigit d = true) : 48 ≤ d ∧ d ≤ 57 := by
  simpa [isDigit] using h

theorem isPySpace_of_digit (d : ℕ) (h : isDigit d = true) : isPySpace d = false := by
  have hb := isDigit_bounds d h
  simp only [isPySpace, Bool.or_eq_false_iff, beq_eq_false_iff_ne, ne_eq]
  omega

theorem isEolByte_of_digit (d : ℕ) (h : isDigit d = true) : isEolByte d = false := by
  have hb := isDigit_bounds d h
  simp only [isEolByte, Bool.or_eq_false_iff, beq_eq_false_iff_ne, ne_eq]
  omega

theorem dropWhile_eq_self_of_all (p : ℕ → Bool) (l : List ℕ)
    (h : ∀ a ∈ l, p a = false) : l.dropWhile p = l := by
  cases l with
  | nil => rfl
  | cons a t => simp [List.dropWhile_cons, h a (List.mem_cons_self a t)]

theorem pyTrim_of_no_space (l : List ℕ) (h : ∀ a ∈ l, isPySpace a = false) :
    pyTrim l = l := by
  unfold pyTrim
  rw [dropWhile_eq_self_of_all isPySpace l h,
    dropWhile_eq_self_of_all isPySpace l.reverse
      (fun a ha => h a (List.mem_reverse.mp ha)),
    List.reverse_reverse]

theorem digitsUSRest_of_digits : ∀ (l : List ℕ), l.all isDigit = true →
    digitsUSRest l = true := by
  intro l
  induction l with
  | nil => intro _; rfl
  | cons a t ih =>
    intro h
    simp only [List.all_cons, Bool.and_eq_true] at h
    obtain ⟨ha, ht⟩ := h
    have hb := isDigit_bounds a ha
    unfold digitsUSRest
    split
    · rename_i heq
      exact absurd heq (by simp)
    · rename_i d rest heq
      injection heq with h1 h2
      omega
    · rename_i d rest hne heq
      injection heq with h1 h2
      subst h1
      subst h2
      simp [ha, ih ht]

theorem digitsUS_of_digits (l : List ℕ) (hne : l ≠ []) (h : l.all isDigit = true) :
    digitsUS l = true := by
  cases l with
  | nil => exact absurd rfl hne
  | cons a t =>
    simp only [List.all_cons, Bool.and_eq_true] at h
    simp [digitsUS, h.1, digitsUSRest_of_digits t h.2]

theorem decDigits_digits (l : List ℕ) (hne : l ≠ []) (h : l.all isDigit = true) :
    decDigits l = some (decDigitsVal l : ℤ) := by
  unfold decDigits
  rw [if_pos (digitsUS_of_digits l hne h)]
  have hfilter : l.filter (· ≠ 95) = l := by
    refine List.filter_eq_self.mpr ?_
    intro a ha
    have hb := isDigit_bounds a (List.all_eq_true.mp h a ha)
    simp only [ne_eq, decide_eq_true_eq]
    omega
  rw [hfilter]

theorem pyInt_digits (l : List ℕ) (hne : l ≠ []) (h : l.all isDigit = true) :
    pyInt l = some (decDigitsVal l : ℤ) := by
  have htrim : pyTrim l = l := pyTrim_of_no_space l
    (fun a ha => isPySpace_of_digit a (List.all_eq_true.mp h a ha))
  have hhead : ∀ t : List ℕ, ∀ s : ℕ, l = s :: t → 48 ≤ s ∧ s ≤ 57 := by
    intro t s hl
    refine isDigit_bounds s (List.all_eq_true.mp h s ?_)
    rw [hl]
    exact List.mem_cons_self s t
  unfold pyInt
  split
  · rename_i t heq
    rw [htrim] at heq
    have := hhead t 43 heq
    omega
  · rename_i t heq
    rw [htrim] at heq
    have := hhead t 45 heq
    omega
  · rename_i x hne43 hne45
    rw [htrim]
    exact decDigits_digits l hne h

/-! ## Decoding behaviour of config frames -/

theorem all_lt_128_of_digits (l : List ℕ) (h : l.all isDigit = true) :
    l.all (· < 128) = true := by
  rw [List.all_eq_true] at h ⊢
  intro a ha
  have hb := isDigit_bounds a (h a ha)
  simp only [decide_eq_true_eq]
  omega

theorem tryConfigUpdate_digits (c : SweepConfig) (payload : List ℕ)
    (h128 : payload.all (· < 128) = true)
    (hdig : (payload.take 14).all isDigit = true) (hlen : 14 ≤ payload.length) :
    tryConfigUpdate c payload =
      { c with
        start_freq_mhz := ((decDigitsVal (payload.take 7) : ℕ) : ℚ) / 1000
        end_freq_mhz := ((decDigitsVal (payload.take 7) : ℕ) : ℚ) / 1000 +
          ((decDigitsVal ((payload.drop 7).take 7) : ℕ) : ℚ) / 1000 } := by
  have htlen : (payload.take 7).length = 7 := by
    rw [List.length_take]
    omega
  have htne : payload.take 7 ≠ [] := by
    intro hcontra
    rw [hcontra] at htlen
    simp at htlen
  have ht14 : (payload.take 14).take 7 = payload.take 7 := by
    rw [List.take_take, show (7 : ℕ) ⊓ 14 = 7 from rfl]
  have htdig : (payload.take 7).all isDigit = true := by
    rw [← ht14]
    exact List.all_eq_true.mpr
      (fun a ha => List.all_eq_true.mp hdig a (List.take_subset _ _ ha))
  have hdlen : ((payload.drop 7).take 7).length = 7 := by
    rw [List.length_take, List.length_drop]
    omega
  have hdne : (payload.drop 7).take 7 ≠ [] := by
    intro hcontra
    rw [hcontra] at hdlen
    simp at hdlen
  have hd14 : (payload.take 14).drop 7 = (payload.drop 7).take 7 := by
    rw [List.drop_take]
  have hddig : ((payload.drop 7).take 7).all isDigit = true := by
    rw [← hd14]
    exact List.all_eq_true.mpr
      (fun a ha => List.all_eq_true.mp hdig a (List.drop_subset _ _ ha))
  unfold tryConfigUpdate
  rw [if_pos h128, if_pos hlen, pyInt_digits _ htne htdig, pyInt_digits _ hdne hddig]
  dsimp only
  simp only [Int.cast_natCast]

theorem tryConfigUpdate_malformed (c : SweepConfig) (payload : List ℕ)
    (h : configUpdates payload = false) : tryConfigUpdate c payload = c := by
  unfold configUpdates at h
  unfold tryConfigUpdate
  by_cases h1 : payload.all (· < 128) = true
  · rw [if_pos h1]
    by_cases h2 : 14 ≤ payload.length
    · rw [if_pos h2]
      cases hp1 : pyInt (payload.take 7) with
      | none => rfl
      | some s =>
        cases hp2 : pyInt ((payload.drop 7).take 7) with
        | none => rfl
        | some sp =>
          exfalso
          rw [h1, hp1, hp2] at h
          simp [h2] at h
    · rw [if_neg h2]
  · rw [if_neg h1]

theorem frame_getD_payload (payload : List ℕ) (term : ℕ) (rest : List ℕ) (j : ℕ)
    (h2 : 2 ≤ j) (hj : j < 2 + payload.length) :
    (36 :: 67 :: (payload ++ term :: rest)).getD j 0 = payload.getD (j - 2) 0 := by
  obtain ⟨j2, rfl⟩ : ∃ j2, j = j2 + 1 + 1 := ⟨j - 2, by omega⟩
  rw [List.getD_cons_succ, List.getD_cons_succ,
    List.getD_append _ _ _ _ (by omega)]
  rfl

theorem findEol_config_frame (payload : List ℕ) (term : ℕ) (rest : List ℕ)
    (hterm : isEolByte term = true)
    (hnoEol : ∀ d ∈ payload, isEolByte d = false)
    (hlen : payload.length ≤ 97) :
    findEol (36 :: 67 :: (payload ++ term :: rest)) = some (2 + payload.length) := by
  have hL : (36 :: 67 :: (payload ++ term :: rest)).length =
      payload.length + 3 + rest.length := by
    simp [List.length_append]
    omega
  unfold findEol
  apply findEolAux_some_of
  · omega
  · omega
  · have hg : (36 :: 67 :: (payload ++ term :: rest)).getD (2 + payload.length) 0 =
        term := by
      have h2 : 2 + payload.length = payload.length + 1 + 1 := by omega
      rw [h2, List.getD_cons_succ, List.getD_cons_succ,
        List.getD_append_right payload (term :: rest) 0 payload.length le_rfl]
      simp
    rw [hg]
    exact hterm
  · intro j hj0 hjlt
    match j with
    | 0 =>
      simp only [List.getD_cons_zero]
      decide
    | 1 =>
      simp only [List.getD_cons_succ, List.getD_cons_zero]
      decide
    | (j2 + 2) =>
      rw [show j2 + 2 = j2 + 1 + 1 from rfl, List.getD_cons_succ, List.getD_cons_succ,
        List.getD_append _ _ _ _ (by omega)]
      have hj2 : j2 < payload.length := by omega
      rw [List.getD_eq_getElem _ _ hj2, hnoEol _ (List.getElem_mem hj2)]
      simp

theorem findEol_long_config_frame (payload : List ℕ) (term : ℕ) (rest : List ℕ)
    (hnoEol : ∀ d ∈ payload, isEolByte d = false)
    (hlen : 98 ≤ payload.length) :
    findEol (36 :: 67 :: (payload ++ term :: rest)) = none := by
  have hL : (36 :: 67 :: (payload ++ term :: rest)).length =
      payload.length + 3 + rest.length := by
    simp [List.length_append]
    omega
  unfold findEol
  have hmin : min (36 :: 67 :: (payload ++ term :: rest)).length 100 = 100 := by
    omega
  rw [hmin]
  apply findEolAux_none_of
  intro j hj0 hj100
  match j with
  | 0 =>
    simp only [List.getD_cons_zero]
    decide
  | 1 =>
    simp only [List.getD_cons_succ, List.getD_cons_zero]
    decide
  | (j2 + 2) =>
    rw [show j2 + 2 = j2 + 1 + 1 from rfl, List.getD_cons_succ, List.getD_cons_succ,
      List.getD_append _ _ _ _ (by omega)]
    have hj2 : j2 < payload.length := by omega
    rw [List.getD_eq_getElem _ _ hj2, hnoEol _ (List.getElem_mem hj2)]
    simp

/-! ## Claims -/

/-- C1: for every finite byte sequence, feeding it to the frame parser in one
`read_data` call or split arbitrarily across multiple calls yields the same
decoded frame sequence (and even the same final config and leftover buffer):
the frame sequence is invariant under the choice of chunk boundaries. -/
theorem C1_chunk_invariance (c : SweepConfig) (chunks : List (List ℕ)) :
    feedMany ⟨c, []⟩ chunks = feed ⟨c, []⟩ chunks.flatten :=
  feedMany_eq_feed_flatten chunks ⟨c, []⟩ (readData_none c [] rfl)

/-- C9: the frame-extraction loop of `read_data` terminates on every finite
buffer: each iteration either consumes at least one byte or halts, so any fuel
beyond the buffer length yields the same halted result; moreover a buffer with
no `$` marker at all is discarded whole in a single iteration. -/
theorem C9_parser_terminates (f : ℕ) (c : SweepConfig) (b : List ℕ)
    (hf : b.length < f) :
    parseLoop f c b = readData c b ∧
      (firstMarker b = none → readData c b = ([], c, [])) :=
  ⟨parseLoop_fuel f (b.length + 1) c b hf (Nat.lt_succ_self _),
    fun hm => readData_none c b hm⟩

/-- Witness for C9 at a concrete unknown-tag-free, marker-free buffer. -/
theorem C9_parser_terminates_witness :
    ([65, 66, 67, 68] : List ℕ).length < 10 ∧
      (parseLoop 10 {} [65, 66, 67, 68] = readData {} [65, 66, 67, 68] ∧
        (firstMarker [65, 66, 67, 68] = none →
          readData {} [65, 66, 67, 68] = ([], {}, []))) :=
  ⟨by decide, C9_parser_terminates 10 {} [65, 66, 67, 68] (by decide)⟩

theorem getD_map_range (f : ℕ → SweepPoint) (n i : ℕ) (hi : i < n) :
    ((List.range n).map f).getD i default = f i := by
  simp [List.getD, List.getElem?_map, List.getElem?_range, hi]

theorem amplitude_exact (n : ℕ) : roundTo 1 (-(n : ℚ) / 2) = -(n : ℚ) / 2 :=
  roundTo_eq_self 1 _ (decimalsLe_of_intMul 1 _ (-(5 * n : ℤ)) (by push_cast; ring))

/-- C2 (amended): a complete sweep frame with sample count `N` at the head of
the buffer decodes into `N` points, consuming exactly `3 + N + 1` bytes;
amplitude `i` is exactly `-raw_i / 2`; frequency `i` is the 3-decimal rounding
of `start + i·(end-start)/(N-1)` (constant `start` before rounding for
`N ≤ 1`); consequently frequency 0 equals `start` and frequency `N-1` equals
`end` whenever those endpoints are multiples of 0.001 MHz, as all
device-reported configurations are. -/
theorem C2_sweep_decode (c : SweepConfig) (N : ℕ) (payload : List ℕ) (term : ℕ)
    (rest : List ℕ) (hN : payload.length = N) :
    ∃ pts,
      parseSweep c (36 :: 83 :: N :: (payload ++ term :: rest)) =
        some (Msg.sweep c pts, rest) ∧
      pts.length = N ∧
      (∀ i, i < N →
        (pts.getD i default).amplitude = -((payload.getD i 0 : ℕ) : ℚ) / 2) ∧
      (∀ i, i < N →
        (pts.getD i default).frequency =
          roundTo 3 (c.start_freq_mhz + (i : ℚ) *
            (if 1 < N then
              (c.end_freq_mhz - c.start_freq_mhz) / ((N - 1 : ℕ) : ℚ)
            else 0))) ∧
      (1 ≤ N → decimalsLe 3 c.start_freq_mhz →
        (pts.getD 0 default).frequency = c.start_freq_mhz) ∧
      (1 < N → decimalsLe 3 c.end_freq_mhz →
        (pts.getD (N - 1) default).frequency = c.end_freq_mhz) := by
  have hg2 : (36 :: 83 :: N :: (payload ++ term :: rest)).getD 2 0 = N := rfl
  have hlen : (36 :: 83 :: N :: (payload ++ term :: rest)).length =
      N + 4 + rest.length := by
    simp [List.length_cons, List.length_append, hN]
    omega
  have hdrop : (36 :: 83 :: N :: (payload ++ term :: rest)).drop (3 + N + 1) =
      rest := by
    have h1 : 3 + N + 1 = N + 1 + 1 + 1 + 1 := by omega
    rw [h1, List.drop_succ_cons, List.drop_succ_cons, List.drop_succ_cons, ← hN,
      List.drop_append]
    rfl
  have hgp : ∀ i, i < N →
      (36 :: 83 :: N :: (payload ++ term :: rest)).getD (3 + i) 0 =
        payload.getD i 0 := by
    intro i hi
    have h1 : 3 + i = i + 1 + 1 + 1 := by omega
    rw [h1, List.getD_cons_succ, List.getD_cons_succ, List.getD_cons_succ,
      List.getD_append _ _ _ _ (by omega)]
  have hps : parseSweep c (36 :: 83 :: N :: (payload ++ term :: rest)) =
      some (Msg.sweep c ((List.range N).map (fun (i : ℕ) =>
        { frequency := roundTo 3 (c.start_freq_mhz + (i : ℚ) *
            (if 1 < N then
              (c.end_freq_mhz - c.start_freq_mhz) / ((N - 1 : ℕ) : ℚ)
            else 0))
          amplitude := roundTo 1
            (-(((36 :: 83 :: N :: (payload ++ term :: rest)).getD (3 + i) 0 : ℕ) :
                ℚ) / 2) })), rest) := by
    simp only [parseSweep, hg2]
    rw [if_neg (by omega), if_neg (by omega), hdrop]
  refine ⟨_, hps, ?_, ?_, ?_, ?_, ?_⟩
  · simp
  · intro i hi
    rw [getD_map_range _ N i hi]
    dsimp only
    rw [hgp i hi, amplitude_exact]
  · intro i hi
    rw [getD_map_range _ N i hi]
  · intro h1 hdec
    rw [getD_map_range _ N 0 (by omega)]
    dsimp only
    have harg : c.start_freq_mhz + ((0 : ℕ) : ℚ) *
        (if 1 < N then (c.end_freq_mhz - c.start_freq_mhz) / ((N - 1 : ℕ) : ℚ)
         else 0) = c.start_freq_mhz := by
      push_cast
      ring
    rw [harg]
    exact roundTo_eq_self 3 _ hdec
  · intro h1 hdec
    rw [getD_map_range _ N (N - 1) (by omega)]
    dsimp only
    have hcast : ((N - 1 : ℕ) : ℚ) ≠ 0 := Nat.cast_ne_zero.mpr (by omega)
    have harg2 : ((N - 1 : ℕ) : ℚ) *
        ((c.end_freq_mhz - c.start_freq_mhz) / ((N - 1 : ℕ) : ℚ)) =
        c.end_freq_mhz - c.start_freq_mhz := by
      rw [mul_comm]
      exact div_mul_cancel₀ _ hcast
    have harg : c.start_freq_mhz + ((N - 1 : ℕ) : ℚ) *
        (if 1 < N then (c.end_freq_mhz - c.start_freq_mhz) / ((N - 1 : ℕ) : ℚ)
         else 0) = c.end_freq_mhz := by
      rw [if_pos h1, harg2]
      ring
    rw [harg]
    exact roundTo_eq_self 3 _ hdec

unseal Rat.add Rat.mul Rat.inv Rat.sub in
/-- C2 counterexample: with a configuration start frequency that is not a
multiple of 0.001 MHz (such a configuration is reachable through a
`set_frequency` control message, whose floats are stored verbatim), the first
decoded point carries the 3-decimal rounding of the start frequency: for
start = 1/10000 MHz the emitted frequency is 0, not the start frequency, so
"frequency_0 = start" fails as stated. -/
theorem C2_counterexample :
    parseSweep { start_freq_mhz := 1 / 10000, end_freq_mhz := 1 }
        [36, 83, 2, 100, 100, 10] =
      some (Msg.sweep { start_freq_mhz := 1 / 10000, end_freq_mhz := 1 }
        [⟨0, -50⟩, ⟨1, -50⟩], []) ∧
    (0 : ℚ) ≠ 1 / 10000 := by
  constructor
  · decide
  · decide

/-- Witness for C2 at the default configuration and a concrete 2-sample
frame. -/
theorem C2_sweep_decode_witness :
    ([100, 50] : List ℕ).length = 2 ∧
      (∃ pts,
        parseSweep {} (36 :: 83 :: 2 :: (([100, 50] : List ℕ) ++ 10 :: [])) =
          some (Msg.sweep {} pts, []) ∧
        pts.length = 2 ∧
        (∀ i, i < 2 →
          (pts.getD i default).amplitude =
            -((([100, 50] : List ℕ).getD i 0 : ℕ) : ℚ) / 2) ∧
        (∀ i, i < 2 →
          (pts.getD i default).frequency =
            roundTo 3 (({} : SweepConfig).start_freq_mhz + (i : ℚ) *
              (if 1 < 2 then
                (({} : SweepConfig).end_freq_mhz -
                    ({} : SweepConfig).start_freq_mhz) / ((2 - 1 : ℕ) : ℚ)
              else 0))) ∧
        (1 ≤ 2 → decimalsLe 3 ({} : SweepConfig).start_freq_mhz →
          (pts.getD 0 default).frequency = ({} : SweepConfig).start_freq_mhz) ∧
        (1 < 2 → decimalsLe 3 ({} : SweepConfig).end_freq_mhz →
          (pts.getD (2 - 1) default).frequency = ({} : SweepConfig).end_freq_mhz)) :=
  ⟨rfl, C2_sweep_decode {} 2 [100, 50] 10 [] rfl⟩

/-- C3: a config frame whose ASCII payload has at least 14 characters, the
first 14 of them decimal digits, sets start = (first 7 digits, kHz)/1000 MHz
and end = start + (next 7 digits, kHz)/1000 MHz, and always emits a config
frame carrying the updated configuration. -/
theorem C3_config_decode (c : SweepConfig) (payload : List ℕ) (term : ℕ)
    (rest : List ℕ) (hterm : isEolByte term = true)
    (h128 : payload.all (· < 128) = true)
    (hdig : (payload.take 14).all isDigit = true)
    (hnoEol : ∀ d ∈ payload, isEolByte d = false)
    (hlen : 14 ≤ payload.length) :
    ∃ r, parseConfig c (36 :: 67 :: (payload ++ term :: rest)) =
      some
        ({ c with
            start_freq_mhz := ((decDigitsVal (payload.take 7) : ℕ) : ℚ) / 1000
            end_freq_mhz := ((decDigitsVal (payload.take 7) : ℕ) : ℚ) / 1000 +
              ((decDigitsVal ((payload.drop 7).take 7) : ℕ) : ℚ) / 1000 },
          Msg.config
            { c with
              start_freq_mhz := ((decDigitsVal (payload.take 7) : ℕ) : ℚ) / 1000
              end_freq_mhz := ((decDigitsVal (payload.take 7) : ℕ) : ℚ) / 1000 +
                ((decDigitsVal ((payload.drop 7).take 7) : ℕ) : ℚ) / 1000 },
          r) := by
  have hdrop2 : (36 :: 67 :: (payload ++ term :: rest)).drop 2 =
      payload ++ term :: rest := rfl
  by_cases hshort : payload.length ≤ 97
  · refine ⟨rest, ?_⟩
    unfold parseConfig
    rw [findEol_config_frame payload term rest hterm hnoEol hshort]
    simp only [parseConfigAt]
    have hpl : ((36 :: 67 :: (payload ++ term :: rest)).drop 2).take
        (2 + payload.length - 2) = payload := by
      rw [hdrop2, show 2 + payload.length - 2 = payload.length from by omega,
        List.take_append_of_le_length le_rfl, List.take_length]
    have hdropr : (36 :: 67 :: (payload ++ term :: rest)).drop
        (2 + payload.length + 1) = rest := by
      rw [show 2 + payload.length + 1 = payload.length + 1 + 1 + 1 from by omega,
        List.drop_succ_cons, List.drop_succ_cons, List.drop_append]
      rfl
    rw [hpl, hdropr, tryConfigUpdate_digits c payload h128 hdig hlen]
  · push_neg at hshort
    refine ⟨(36 :: 67 :: (payload ++ term :: rest)).drop 51, ?_⟩
    have hL : (36 :: 67 :: (payload ++ term :: rest)).length =
        payload.length + 3 + rest.length := by
      simp [List.length_append]
      omega
    unfold parseConfig
    rw [findEol_long_config_frame payload term rest hnoEol (by omega),
      if_neg (by omega)]
    simp only [parseConfigAt]
    have hpl : ((36 :: 67 :: (payload ++ term :: rest)).drop 2).take (50 - 2) =
        payload.take 48 := by
      rw [hdrop2]
      exact List.take_append_of_le_length (by omega)
    have h128t : (payload.take 48).all (· < 128) = true :=
      List.all_eq_true.mpr
        (fun a ha => List.all_eq_true.mp h128 a (List.take_subset _ _ ha))
    have htdig : ((payload.take 48).take 14).all isDigit = true := by
      rw [List.take_take, show (14 : ℕ) ⊓ 48 = 14 from rfl]
      exact hdig
    rw [hpl, tryConfigUpdate_digits c (payload.take 48) h128t htdig
      (by rw [List.length_take]; omega)]
    rw [List.take_take, List.drop_take, List.take_take]
    norm_num

unseal Rat.add Rat.mul Rat.inv Rat.sub in
/-- Witness for C3 at the concrete payload "01990004010000": start 199.000
MHz, end 600.000 MHz, as the spec's worked example states. -/
theorem C3_config_decode_witness :
    (∃ r, parseConfig {}
        (36 :: 67 ::
          (([48, 49, 57, 57, 48, 48, 48, 48, 52, 48, 49, 48, 48, 48] : List ℕ) ++
            13 :: [])) =
      some
        ({ ({} : SweepConfig) with
            start_freq_mhz :=
              ((decDigitsVal
                  (([48, 49, 57, 57, 48, 48, 48, 48, 52, 48, 49, 48, 48, 48] :
                    List ℕ).take 7) : ℕ) : ℚ) / 1000
            end_freq_mhz :=
              ((decDigitsVal
                  (([48, 49, 57, 57, 48, 48, 48, 48, 52, 48, 49, 48, 48, 48] :
                    List ℕ).take 7) : ℕ) : ℚ) / 1000 +
              ((decDigitsVal
                  ((([48, 49, 57, 57, 48, 48, 48, 48, 52, 48, 49, 48, 48, 48] :
                    List ℕ).drop 7).take 7) : ℕ) : ℚ) / 1000 },
          Msg.config
            { ({} : SweepConfig) with
              start_freq_mhz :=
                ((decDigitsVal
                    (([48, 49, 57, 57, 48, 48, 48, 48, 52, 48, 49, 48, 48, 48] :
                      List ℕ).take 7) : ℕ) : ℚ) / 1000
              end_freq_mhz :=
                ((decDigitsVal
                    (([48, 49, 57, 57, 48, 48, 48, 48, 52, 48, 49, 48, 48, 48] :
                      List ℕ).take 7) : ℕ) : ℚ) / 1000 +
                ((decDigitsVal
                    ((([48, 49, 57, 57, 48, 48, 48, 48, 52, 48, 49, 48, 48, 48] :
                      List ℕ).drop 7).take 7) : ℕ) : ℚ) / 1000 },
          r)) ∧
    ((decDigitsVal
        (([48, 49, 57, 57, 48, 48, 48, 48, 52, 48, 49, 48, 48, 48] :
          List ℕ).take 7) : ℕ) : ℚ) / 1000 = 199 ∧
    ((decDigitsVal
        (([48, 49, 57, 57, 48, 48, 48, 48, 52, 48, 49, 48, 48, 48] :
          List ℕ).take 7) : ℕ) : ℚ) / 1000 +
      ((decDigitsVal
          ((([48, 49, 57, 57, 48, 48, 48, 48, 52, 48, 49, 48, 48, 48] :
            List ℕ).drop 7).take 7) : ℕ) : ℚ) / 1000 = 600 :=
  ⟨C3_config_decode {} [48, 49, 57, 57, 48, 48, 48, 48, 52, 48, 49, 48, 48, 48]
      13 [] (by decide) (by decide) (by decide) (by decide) (by decide),
    by decide, by decide⟩

/-- C4 (amended): a config frame with a malformed payload whose terminator
lies within the 100-byte lookahead (payload at most 97 bytes) raises no
error: the frame is consumed exactly through its terminator, a config frame
is still emitted, and the shared configuration is left entirely unchanged. -/
theorem C4_malformed_config (c : SweepConfig) (payload : List ℕ) (term : ℕ)
    (rest : List ℕ) (hterm : isEolByte term = true)
    (hnoEol : ∀ d ∈ payload, isEolByte d = false)
    (hshort : payload.length ≤ 97)
    (hmal : configUpdates payload = false) :
    parseConfig c (36 :: 67 :: (payload ++ term :: rest)) =
      some (c, Msg.config c, rest) := by
  unfold parseConfig
  rw [findEol_config_frame payload term rest hterm hnoEol hshort]
  simp only [parseConfigAt]
  have hdrop2 : (36 :: 67 :: (payload ++ term :: rest)).drop 2 =
      payload ++ term :: rest := rfl
  have hpl : ((36 :: 67 :: (payload ++ term :: rest)).drop 2).take
      (2 + payload.length - 2) = payload := by
    rw [hdrop2, show 2 + payload.length - 2 = payload.length from by omega,
      List.take_append_of_le_length le_rfl, List.take_length]
  have hdropr : (36 :: 67 :: (payload ++ term :: rest)).drop
      (2 + payload.length + 1) = rest := by
    rw [show 2 + payload.length + 1 = payload.length + 1 + 1 + 1 from by omega,
      List.drop_succ_cons, List.drop_succ_cons, List.drop_append]
    rfl
  rw [hpl, hdropr, tryConfigUpdate_malformed c payload hmal]

/-- Witness for C4 at a concrete two-byte non-numeric payload. -/
theorem C4_malformed_config_witness :
    (isEolByte 13 = true ∧ (∀ d ∈ ([88, 88] : List ℕ), isEolByte d = false) ∧
      ([88, 88] : List ℕ).length ≤ 97 ∧ configUpdates [88, 88] = false) ∧
    parseConfig {} (36 :: 67 :: (([88, 88] : List ℕ) ++ 13 :: [77])) =
      some ({}, Msg.config {}, [77]) :=
  ⟨⟨by decide, by decide, by decide, by decide⟩,
    C4_malformed_config {} [88, 88] 13 [77] (by decide) (by decide) (by decide)
      (by decide)⟩

unseal Rat.add Rat.mul Rat.inv Rat.sub in
/-- C4 counterexample: one single config frame whose 112-byte payload is
malformed (it starts with 96 `X` bytes) and whose CR terminator lies beyond
the 100-byte lookahead.  `read_data` force-splits it at offset 50 and then
re-parses the bytes `$C01990004010000\r` embedded inside the payload as a
genuine config frame, so the shared `SweepConfig` is changed — refuting the
claim that a malformed config frame always leaves it entirely unchanged. -/
theorem C4_counterexample :
    configUpdates (List.replicate 96 88 ++
        ([36, 67] ++ [48, 49, 57, 57, 48, 48, 48, 48, 52, 48, 49, 48, 48, 48])) =
      false ∧
    (∀ d ∈ List.replicate 96 88 ++
        ([36, 67] ++ [48, 49, 57, 57, 48, 48, 48, 48, 52, 48, 49, 48, 48, 48]),
      isEolByte d = false) ∧
    isEolByte 13 = true ∧
    (readData {} (36 :: 67 :: ((List.replicate 96 88 ++
        ([36, 67] ++ [48, 49, 57, 57, 48, 48, 48, 48, 52, 48, 49, 48, 48, 48])) ++
        13 :: []))).2.1 =
      { start_freq_mhz := 199, end_freq_mhz := 600 } ∧
    ({} : SweepConfig).start_freq_mhz = 1990 := by
  refine ⟨by decide, by decide, by decide, ?_, by decide⟩
  decide

/-- Inversion of the delta branch of `_generate_delta_sweep`. -/
theorem generateDeltaSweep_delta_inv (st : ClientState) (now : ℚ)
    (data bl : List SweepPoint) (ds : List Delta) (age pct : ℚ)
    (st' : ClientState) (hbl : st.baseline = some bl)
    (hfresh : ¬ st.baseline_refresh_interval < now - st.last_baseline_time)
    (h : generateDeltaSweep st now data = some (.delta ds age pct, st')) :
    ds = computeDeltas st.delta_threshold_db bl data ∧
    age = now - st.last_baseline_time ∧
    pct = compressionPctVal ds.length data.length ∧
    ∃ bl', applyDeltas bl ds = some bl' ∧ st' = { st with baseline := some bl' } := by
  simp only [generateDeltaSweep, hbl, if_neg hfresh] at h
  cases happ : applyDeltas bl (computeDeltas st.delta_threshold_db bl data) with
  | none =>
    rw [happ] at h
    exact absurd h (by simp)
  | some bl2 =>
    rw [happ] at h
    simp only [Option.some.injEq, Prod.mk.injEq, Encoded.delta.injEq] at h
    obtain ⟨⟨hds, hage, hpct⟩, hst⟩ := h
    subst hds
    subst hage
    subst hpct
    subst hst
    exact ⟨rfl, rfl, rfl, bl2, happ, rfl⟩

/-- C5 (amended): in delta mode with `delta_threshold_db ≤ 0` and a fresh
baseline of the same length as the current sweep, the delta set contains
every index of the sweep — indices with an exactly-zero amplitude difference
included, because `|diff| >= threshold` holds for any `threshold ≤ 0`. -/
theorem C5_threshold_nonpos (st : ClientState) (now : ℚ)
    (data bl : List SweepPoint) (hth : st.delta_threshold_db ≤ 0)
    (hbl : st.baseline = some bl)
    (hfresh : ¬ st.baseline_refresh_interval < now - st.last_baseline_time)
    (hlen : data.length = bl.length) :
    ∃ ds age pct st',
      generateDeltaSweep st now data = some (.delta ds age pct, st') ∧
      ds.map (fun d => d.index) = List.range data.length := by
  have hidx : ∀ d ∈ computeDeltas st.delta_threshold_db bl data,
      d.index < bl.length := by
    intro d hd
    have := (computeDeltasAux_mem st.delta_threshold_db bl data 0 d hd).2.1
    omega
  obtain ⟨bl', happ⟩ := applyDeltas_isSome _ bl hidx
  refine ⟨_, _, _, _,
    generateDeltaSweep_delta st now data bl bl' hbl hfresh happ, ?_⟩
  simp only [computeDeltas]
  rw [computeDeltasAux_nonpos st.delta_threshold_db bl hth data 0,
    List.range_eq_range']

unseal Rat.add Rat.mul Rat.inv Rat.sub in
/-- C5 counterexample: with threshold 0, a fresh one-point baseline equal to
the current sweep (amplitude difference exactly zero at index 0), the code
still includes index 0 in the delta set — the claim says it must be
excluded. -/
theorem C5_counterexample :
    generateDeltaSweep
        { use_delta_encoding := true, delta_threshold_db := 0,
          baseline_refresh_interval := 60, last_baseline_time := 0,
          baseline := some [⟨100, -50⟩] } 10 [⟨100, -50⟩] =
      some (.delta [⟨0, 100, -50⟩] 10 (-25),
        { use_delta_encoding := true, delta_threshold_db := 0,
          baseline_refresh_interval := 60, last_baseline_time := 0,
          baseline := some [⟨100, -50⟩] }) ∧
    (-50 : ℚ) - -50 = 0 := by
  constructor
  · decide
  · decide

unseal Rat.add Rat.mul Rat.inv Rat.sub in
/-- Witness for C5 at a concrete one-point sweep and baseline. -/
theorem C5_threshold_nonpos_witness :
    ((0 : ℚ) ≤ 0 ∧ ¬ (60 : ℚ) < 10 - 0 ∧
      ([⟨100, -49⟩] : List SweepPoint).length =
        ([⟨100, -50⟩] : List SweepPoint).length) ∧
    (∃ ds age pct st',
      generateDeltaSweep
          { use_delta_encoding := true, delta_threshold_db := 0,
            baseline_refresh_interval := 60, last_baseline_time := 0,
            baseline := some [⟨100, -50⟩] } 10 [⟨100, -49⟩] =
        some (.delta ds age pct, st') ∧
      ds.map (fun d => d.index) =
        List.range ([⟨100, -49⟩] : List SweepPoint).length) :=
  ⟨⟨by decide, by decide, rfl⟩,
    C5_threshold_nonpos
      { use_delta_encoding := true, delta_threshold_db := 0,
        baseline_refresh_interval := 60, last_baseline_time := 0,
        baseline := some [⟨100, -50⟩] } 10 [⟨100, -49⟩] [⟨100, -50⟩]
      (by decide) rfl (by decide) rfl⟩

/-- C6 (amended): the emitted compression ratio of a delta-encoded sweep is
`(1 - (delta_count·20)/(total_count·16)) · 100` — a percentage, carrying the
extra factor 100 the claim omits — and 0 when the sweep is empty. -/
theorem C6_compression_pct (st : ClientState) (now : ℚ)
    (data bl : List SweepPoint) (ds : List Delta) (age pct : ℚ)
    (st' : ClientState) (hbl : st.baseline = some bl)
    (hfresh : ¬ st.baseline_refresh_interval < now - st.last_baseline_time)
    (h : generateDeltaSweep st now data = some (.delta ds age pct, st')) :
    pct = if data.length = 0 then 0
      else (1 - ((ds.length * 20 : ℕ) : ℚ) / ((data.length * 16 : ℕ) : ℚ)) * 100 := by
  obtain ⟨-, -, hpct, -⟩ :=
    generateDeltaSweep_delta_inv st now data bl ds age pct st' hbl hfresh h
  rw [hpct]
  unfold compressionPctVal
  rcases Nat.eq_zero_or_pos data.length with hz | hp
  · simp [hz]
  · rw [if_pos (by omega), if_neg (by omega)]

unseal Rat.add Rat.mul Rat.inv Rat.sub in
/-- C6 counterexample: one changed point out of one; the code emits
compression_ratio −25 (a percentage), while the claim's formula gives
1 − 20/16 = −1/4. -/
theorem C6_counterexample :
    generateDeltaSweep
        { use_delta_encoding := true, delta_threshold_db := 1,
          baseline_refresh_interval := 60, last_baseline_time := 0,
          baseline := some [⟨100, -50⟩] } 10 [⟨100, -60⟩] =
      some (.delta [⟨0, 100, -60⟩] 10 (-25),
        { use_delta_encoding := true, delta_threshold_db := 1,
          baseline_refresh_interval := 60, last_baseline_time := 0,
          baseline := some [⟨100, -60⟩] }) ∧
    (-25 : ℚ) ≠ 1 - ((1 * 20 : ℕ) : ℚ) / ((1 * 16 : ℕ) : ℚ) := by
  constructor
  · decide
  · decide

unseal Rat.add Rat.mul Rat.inv Rat.sub in
/-- Witness for C6 at a concrete one-point delta. -/
theorem C6_compression_pct_witness :
    (¬ (60 : ℚ) < 10 - 0) ∧
    (-25 : ℚ) = if ([⟨100, -60⟩] : List SweepPoint).length = 0 then 0
      else (1 - ((([⟨0, 100, -60⟩] : List Delta).length * 20 : ℕ) : ℚ) /
        ((([⟨100, -60⟩] : List SweepPoint).length * 16 : ℕ) : ℚ)) * 100 :=
  ⟨by decide,
    C6_compression_pct
      { use_delta_encoding := true, delta_threshold_db := 1,
        baseline_refresh_interval := 60, last_baseline_time := 0,
        baseline := some [⟨100, -50⟩] } 10 [⟨100, -60⟩] [⟨100, -50⟩]
      [⟨0, 100, -60⟩] 10 (-25)
      { use_delta_encoding := true, delta_threshold_db := 1,
        baseline_refresh_interval := 60, last_baseline_time := 0,
        baseline := some [⟨100, -60⟩] }
      rfl (by decide) (by decide)⟩

/-- C7: for a delta-enabled client, `request_baseline` clears the stored
baseline; the immediately following sweep is sent full (baseline = true)
exactly once, storing it as the new baseline and resetting the baseline
timestamp; the next sweep within the refresh interval (here of at most the
baseline's length, the normal same-configuration case) is delta-encoded
again. -/
theorem C7_request_baseline (st : ClientState) (t1 t2 : ℚ)
    (d1 d2 : List SweepPoint) (henabled : st.use_delta_encoding = true)
    (hwithin : t2 - t1 ≤ st.baseline_refresh_interval)
    (hlen : d2.length ≤ d1.length) :
    (requestBaseline st).baseline = none ∧
    encodeSweep (requestBaseline st) t1 d1 =
      some (.fullBaseline d1,
        { requestBaseline st with baseline := some d1, last_baseline_time := t1 }) ∧
    ∃ ds pct st2,
      encodeSweep
          { requestBaseline st with baseline := some d1, last_baseline_time := t1 }
          t2 d2 =
        some (.delta ds (t2 - t1) pct, st2) := by
  refine ⟨rfl, ?_, ?_⟩
  · simp only [encodeSweep, requestBaseline, henabled, if_true, generateDeltaSweep]
  · have hidx : ∀ d ∈ computeDeltas st.delta_threshold_db d1 d2,
        d.index < d1.length := by
      intro d hd
      have := (computeDeltasAux_mem st.delta_threshold_db d1 d2 0 d hd).2.1
      omega
    obtain ⟨bl', happ⟩ := applyDeltas_isSome _ d1 hidx
    have hfresh : ¬ ({ requestBaseline st with
        baseline := some d1, last_baseline_time := t1 } :
          ClientState).baseline_refresh_interval <
        t2 - ({ requestBaseline st with
          baseline := some d1, last_baseline_time := t1 } :
            ClientState).last_baseline_time := by
      simp only [requestBaseline]
      exact not_lt.mpr hwithin
    have hstep := generateDeltaSweep_delta
      { requestBaseline st with baseline := some d1, last_baseline_time := t1 }
      t2 d2 d1 bl' rfl hfresh happ
    have henc : encodeSweep
        { requestBaseline st with baseline := some d1, last_baseline_time := t1 }
        t2 d2 =
        generateDeltaSweep
          { requestBaseline st with baseline := some d1, last_baseline_time := t1 }
          t2 d2 := by
      simp [encodeSweep, requestBaseline, henabled]
    exact ⟨_, _, _, henc.trans hstep⟩

/-- Witness for C7 at a concrete client and two one-point sweeps. -/
theorem C7_request_baseline_witness :
    (({ use_delta_encoding := true, delta_threshold_db := 1,
        baseline_refresh_interval := 60, last_baseline_time := 5,
        baseline := some [⟨1, -1⟩] } : ClientState).use_delta_encoding = true ∧
      (110 : ℚ) - 100 ≤ 60 ∧
      ([⟨100, -52⟩] : List SweepPoint).length ≤
        ([⟨100, -50⟩] : List SweepPoint).length) ∧
    ((requestBaseline
        { use_delta_encoding := true, delta_threshold_db := 1,
          baseline_refresh_interval := 60, last_baseline_time := 5,
          baseline := some [⟨1, -1⟩] }).baseline = none ∧
    encodeSweep
        (requestBaseline
          { use_delta_encoding := true, delta_threshold_db := 1,
            baseline_refresh_interval := 60, last_baseline_time := 5,
            baseline := some [⟨1, -1⟩] }) 100 [⟨100, -50⟩] =
      some (.fullBaseline [⟨100, -50⟩],
        { use_delta_encoding := true, delta_threshold_db := 1,
          baseline_refresh_interval := 60, last_baseline_time := 100,
          baseline := some [⟨100, -50⟩] }) ∧
    ∃ ds pct st2,
      encodeSweep
          { use_delta_encoding := true, delta_threshold_db := 1,
            baseline_refresh_interval := 60, last_baseline_time := 100,
            baseline := some [⟨100, -50⟩] }
          110 [⟨100, -52⟩] =
        some (.delta ds ((110 : ℚ) - 100) pct, st2)) :=
  ⟨⟨rfl, by norm_num, by decide⟩,
    C7_request_baseline
      { use_delta_encoding := true, delta_threshold_db := 1,
        baseline_refresh_interval := 60, last_baseline_time := 5,
        baseline := some [⟨1, -1⟩] } 100 110 [⟨100, -50⟩] [⟨100, -52⟩]
      rfl (by norm_num) (by decide)⟩

/-- C8: whenever a delta-mode encoding step completes, the new stored
baseline is exactly the prior baseline overwritten (in index order) at the
indices of the emitted delta set; every touched index now carries the current
sweep's point, and every untouched index — both below and beyond the sweep
length — retains its prior value. -/
theorem C8_delta_apply (st : ClientState) (now : ℚ) (data bl : List SweepPoint)
    (ds : List Delta) (age pct : ℚ) (st' : ClientState)
    (hbl : st.baseline = some bl)
    (hfresh : ¬ st.baseline_refresh_interval < now - st.last_baseline_time)
    (h : generateDeltaSweep st now data = some (.delta ds age pct, st')) :
    ∃ bl', st'.baseline = some bl' ∧ applyDeltas bl ds = some bl' ∧
      (∀ d ∈ ds, bl'.getD d.index default = data.getD d.index default) ∧
      (∀ j, (∀ d ∈ ds, d.index ≠ j) →
        bl'.getD j default = bl.getD j default) := by
  obtain ⟨hds, -, -, bl', happ, hst⟩ :=
    generateDeltaSweep_delta_inv st now data bl ds age pct st' hbl hfresh h
  refine ⟨bl', by rw [hst], happ, ?_, ?_⟩
  · intro d hd
    have hpw : ds.Pairwise (fun d1 d2 => d1.index < d2.index) := by
      rw [hds]
      exact computeDeltasAux_pairwise st.delta_threshold_db bl data 0
    rw [applyDeltas_touched ds bl bl' happ hpw d hd]
    have hmem : d ∈ computeDeltasAux st.delta_threshold_db bl 0 data := by
      rw [hds] at hd
      exact hd
    have hval := (computeDeltasAux_mem st.delta_threshold_db bl data 0 d hmem).2.2
    rw [Nat.sub_zero] at hval
    exact hval
  · intro j hj
    exact applyDeltas_untouched ds bl bl' j happ hj

unseal Rat.add Rat.mul Rat.inv Rat.sub in
/-- Witness for C8 at a concrete two-point sweep with one changed point. -/
theorem C8_delta_apply_witness :
    (¬ (60 : ℚ) < 10 - 0) ∧
    (∃ bl',
      ({ use_delta_encoding := true, delta_threshold_db := 1,
          baseline_refresh_interval := 60, last_baseline_time := 0,
          baseline := some [⟨100, -60⟩, ⟨200, -40⟩] } : ClientState).baseline =
        some bl' ∧
      applyDeltas [⟨100, -50⟩, ⟨200, -40⟩] [⟨0, 100, -60⟩] = some bl' ∧
      (∀ d ∈ ([⟨0, 100, -60⟩] : List Delta),
        bl'.getD d.index default =
          ([⟨100, -60⟩, ⟨200, -40⟩] : List SweepPoint).getD d.index default) ∧
      (∀ j, (∀ d ∈ ([⟨0, 100, -60⟩] : List Delta), d.index ≠ j) →
        bl'.getD j default =
          ([⟨100, -50⟩, ⟨200, -40⟩] : List SweepPoint).getD j default)) :=
  ⟨by decide,
    C8_delta_apply
      { use_delta_encoding := true, delta_threshold_db := 1,
        baseline_refresh_interval := 60, last_baseline_time := 0,
        baseline := some [⟨100, -50⟩, ⟨200, -40⟩] } 10
      [⟨100, -60⟩, ⟨200, -40⟩] [⟨100, -50⟩, ⟨200, -40⟩] [⟨0, 100, -60⟩] 10
      (75 / 2)
      { use_delta_encoding := true, delta_threshold_db := 1,
        baseline_refresh_interval := 60, last_baseline_time := 0,
        baseline := some [⟨100, -60⟩, ⟨200, -40⟩] }
      rfl (by decide) (by decide)⟩

/-- C10: when the current sweep is strictly shorter than the stored baseline,
the delta step completes and the updated baseline keeps its full length:
every entry at an index at or beyond the sweep length is left unchanged — the
stored baseline never shrinks outside a full refresh. -/
theorem C10_baseline_never_shrinks (st : ClientState) (now : ℚ)
    (data bl : List SweepPoint) (hbl : st.baseline = some bl)
    (hfresh : ¬ st.baseline_refresh_interval < now - st.last_baseline_time)
    (hlen : data.length < bl.length) :
    ∃ pct bl',
      generateDeltaSweep st now data =
        some (.delta (computeDeltas st.delta_threshold_db bl data)
          (now - st.last_baseline_time) pct, { st with baseline := some bl' }) ∧
      bl'.length = bl.length ∧
      (∀ j, data.length ≤ j → bl'.getD j default = bl.getD j default) := by
  have hidx : ∀ d ∈ computeDeltas st.delta_threshold_db bl data,
      d.index < bl.length := by
    intro d hd
    have := (computeDeltasAux_mem st.delta_threshold_db bl data 0 d hd).2.1
    omega
  obtain ⟨bl', happ⟩ := applyDeltas_isSome _ bl hidx
  refine ⟨_, bl',
    generateDeltaSweep_delta st now data bl bl' hbl hfresh happ,
    applyDeltas_length _ bl bl' happ, ?_⟩
  intro j hj
  refine applyDeltas_untouched _ bl bl' j happ ?_
  intro d hd
  have := (computeDeltasAux_mem st.delta_threshold_db bl data 0 d hd).2.1
  omega

unseal Rat.add Rat.mul Rat.inv Rat.sub in
/-- Witness for C10: a one-point sweep against a two-point baseline. -/
theorem C10_baseline_never_shrinks_witness :
    (¬ (60 : ℚ) < 10 - 0 ∧
      ([⟨100, -60⟩] : List SweepPoint).length <
        ([⟨100, -50⟩, ⟨200, -40⟩] : List SweepPoint).length) ∧
    (∃ pct bl',
      generateDeltaSweep
          { use_delta_encoding := true, delta_threshold_db := 1,
            baseline_refresh_interval := 60, last_baseline_time := 0,
            baseline := some [⟨100, -50⟩, ⟨200, -40⟩] } 10 [⟨100, -60⟩] =
        some (.delta
          (computeDeltas
            ({ use_delta_encoding := true, delta_threshold_db := 1,
                baseline_refresh_interval := 60, last_baseline_time := 0,
                baseline := some [⟨100, -50⟩, ⟨200, -40⟩] } :
              ClientState).delta_threshold_db
            [⟨100, -50⟩, ⟨200, -40⟩] [⟨100, -60⟩])
          ((10 : ℚ) - 0) pct,
          { use_delta_encoding := true, delta_threshold_db := 1,
            baseline_refresh_interval := 60, last_baseline_time := 0,
            baseline := some bl' }) ∧
      bl'.length = ([⟨100, -50⟩, ⟨200, -40⟩] : List SweepPoint).length ∧
      (∀ j, ([⟨100, -60⟩] : List SweepPoint).length ≤ j →
        bl'.getD j default =
          ([⟨100, -50⟩, ⟨200, -40⟩] : List SweepPoint).getD j default)) :=
  ⟨⟨by decide, by decide⟩,
    C10_baseline_never_shrinks
      { use_delta_encoding := true, delta_threshold_db := 1,
        baseline_refresh_interval := 60, last_baseline_time := 0,
        baseline := some [⟨100, -50⟩, ⟨200, -40⟩] } 10 [⟨100, -60⟩]
      [⟨100, -50⟩, ⟨200, -40⟩] rfl (by decide) (by decide)⟩

unseal Rat.add Rat.mul Rat.inv Rat.sub in
/-- C7 counterexample: after `request_baseline` and the forced full sweep
(one point, stored as the baseline at time 100), a following sweep within the
refresh interval that has MORE points than the stored baseline is not
delta-encoded: the appended index enters the delta list, and the in-place
baseline update `baseline[1] = …` raises `IndexError` (modelled as `none`),
so no message at all is produced for that client. -/
theorem C7_counterexample :
    encodeSweep
        { use_delta_encoding := true, delta_threshold_db := 1,
          baseline_refresh_interval := 60, last_baseline_time := 100,
          baseline := some [⟨100, -50⟩] } 110 [⟨100, -50⟩, ⟨200, -40⟩] = none ∧
    (110 : ℚ) - 100 ≤ 60 := by
  constructor
  · decide
  · decide
